import Mathlib

/-!
# Verification of the pytbox resilient remote-call execution core

Shallow embedding of the execution framework of the `pytbox` repository:
the idempotency-cache wrappers (`Dida365._run_idempotent`,
`OnePasswordConnect._run_idempotent`), the retry configuration clamps
(`NetboxClient.__init__`, `Dida365.__init__`, `AliyunClient.call`), the
error classifiers (`map_tea_exception`, `map_volc_exception`), the
retrying executors (`NetboxClient._request_with_retry`,
`AliyunClient.call`), the single-id resolver
(`NetboxClient._query_single_id`) and the batch orchestrator
(`NetboxClient._run_parallel_batch`).

Python floats (timestamps, backoff seconds) are embedded as rationals,
Python ints as `Int`/`Nat`, dictionaries as association lists with
replace-on-write assignment, and fallible callables as `Except`-valued
data.  Remote calls are abstracted by an oracle giving the outcome of
each attempt, so the executors become pure functions of that oracle.
-/

namespace Pytbox

/-- The `ReturnResponse` contract `{code, msg, data}`; `code == 0` is
success.  The payload type is a parameter because each client carries a
different shape of data. -/
structure Resp (δ : Type) where
  code : Int
  msg : String
  data : δ
deriving Repr, DecidableEq

/-- Python `d.get(k)` on a string-keyed dict modelled as an association
list. -/
def dictGet {β : Type} (d : List (String × β)) (k : String) : Option β :=
  List.lookup k d

/-- Python `d[k] = v`: dict assignment replaces any existing binding for
`k`.  Binding order is not observed by any of the modelled code, so the
new binding is placed in front and stale bindings are dropped. -/
def dictSet {β : Type} (d : List (String × β)) (k : String) (v : β) :
    List (String × β) :=
  (k, v) :: d.filter (fun p => p.1 ≠ k)

theorem dictGet_dictSet {β : Type} (d : List (String × β)) (k : String) (v : β) :
    dictGet (dictSet d k v) k = some v := by
  simp [dictGet, dictSet, List.lookup]

end Pytbox

namespace Pytbox.Dida365

/-- A TTL-stamped idempotency cache: key ↦ (created-at, response), the
`_idempotency_cache` dict of `Dida365`. -/
abbrev Cache (δ : Type) := List (String × ℚ × Resp δ)

/-- `Dida365._cleanup_idempotency_cache`: drop entries whose age
`now - created_at` exceeds the TTL. -/
def cleanupIdempotencyCache {δ : Type} (ttl : ℤ) (now : ℚ) (cache : Cache δ) :
    Cache δ :=
  cache.filter (fun e => decide (now - e.2.1 ≤ (ttl : ℚ)))

/-- Result of one wrapped invocation: the returned response, the cache
afterwards, and whether the underlying operation was invoked. -/
structure IdemOutcome (δ : Type) where
  resp : Resp δ
  cache : Cache δ
  invoked : Bool
deriving Repr, DecidableEq

/-- `Dida365._run_idempotent`: sweep expired entries, serve a live entry
without invoking the caller, otherwise invoke and store the result only
when `resp.code == 0`.  The deferred caller is abstracted by the response
`op` it would produce. -/
def runIdempotent {δ : Type} (ttl : ℤ) (now : ℚ) (cache : Cache δ)
    (key : String) (op : Resp δ) : IdemOutcome δ :=
  let cache1 := cleanupIdempotencyCache ttl now cache
  let hit : Option (Resp δ) :=
    match dictGet cache1 key with
    | some (created, r) => if now - created ≤ (ttl : ℚ) then some r else none
    | none => none
  match hit with
  | some r => ⟨r, cache1, false⟩
  | none =>
      if op.code = 0 then ⟨op, dictSet cache1 key (now, op), true⟩
      else ⟨op, cache1, true⟩

end Pytbox.Dida365

namespace Pytbox.OnePassword

/-- `OnePasswordConnect._idempotency_cache`: key ↦ (created-at, result);
the cached value is the raw caller result (the wrapper is generic in the
result type). -/
abbrev Cache (α : Type) := List (String × ℚ × α)

/-- `OnePasswordConnect._cleanup_idempotency_cache`: a non-positive TTL
clears the cache, otherwise expired entries are dropped. -/
def cleanupIdempotencyCache {α : Type} (ttl : ℤ) (now : ℚ) (cache : Cache α) :
    Cache α :=
  if ttl ≤ 0 then []
  else cache.filter (fun e => decide (now - e.2.1 ≤ (ttl : ℚ)))

/-- Result of one wrapped invocation of the 1Password wrapper. -/
structure IdemOutcome (α : Type) where
  result : α
  cache : Cache α
  invoked : Bool
deriving Repr, DecidableEq

/-- `OnePasswordConnect._run_idempotent`: `key = None` bypasses the
cache; otherwise sweep, serve a live entry, else invoke the caller and
store whatever it returned — there is no success check before the
store.  The deferred caller is abstracted by the value `op` it would
return (a raising caller never reaches the store line and is outside
this function). -/
def runIdempotent {α : Type} (ttl : ℤ) (now : ℚ) (cache : Cache α)
    (key : Option String) (op : α) : IdemOutcome α :=
  match key with
  | none => ⟨op, cache, true⟩
  | some k =>
      let cache1 := cleanupIdempotencyCache ttl now cache
      let hit : Option α :=
        match dictGet cache1 k with
        | some (created, r) => if now - created ≤ (ttl : ℚ) then some r else none
        | none => none
      match hit with
      | some r => ⟨r, cache1, false⟩
      | none => ⟨op, dictSet cache1 k (now, op), true⟩

end Pytbox.OnePassword

namespace Pytbox

theorem dida_cleanup_idem {δ : Type} (ttl : ℤ) (now : ℚ) (c : Dida365.Cache δ) :
    Dida365.cleanupIdempotencyCache ttl now (Dida365.cleanupIdempotencyCache ttl now c)
      = Dida365.cleanupIdempotencyCache ttl now c := by
  simp [Dida365.cleanupIdempotencyCache, List.filter_filter]

/-- C1 (counterexample): `OnePasswordConnect._run_idempotent` stores the
caller's result unconditionally: a `code = 1` response is stored in the
idempotency cache, and a second call with the same key inside the TTL
window is served the cached failure without re-executing the operation —
contradicting the claim that only `code == 0` results are ever cached and
that a failed response can always be retried. -/
theorem c1_counterexample :
    (OnePassword.runIdempotent (α := Resp Unit) 300 1000 [] (some "k") ⟨1, "boom", ()⟩
        = ⟨⟨1, "boom", ()⟩, [("k", (1000, ⟨1, "boom", ()⟩))], true⟩) ∧
    (OnePassword.runIdempotent (α := Resp Unit) 300 1000
        [("k", (1000, ⟨1, "boom", ()⟩))] (some "k") ⟨0, "fresh", ()⟩
        = ⟨⟨1, "boom", ()⟩, [("k", (1000, ⟨1, "boom", ()⟩))], false⟩) := by
  constructor <;>
    norm_num [OnePassword.runIdempotent, OnePassword.cleanupIdempotencyCache,
      dictGet, dictSet, List.lookup]

/-- C1 (amended): the success-only caching invariant holds for
`Dida365._run_idempotent`: on a cache miss a failed response (`code ≠ 0`)
is returned to the caller, nothing beyond the expiry sweep changes in the
cache, and an immediate repeat call with the same key re-executes the
operation; a successful response is stored under the key with the current
timestamp.  `OnePasswordConnect._run_idempotent`, in contrast, stores
whatever the caller returns on a miss with no success check (its
operations signal failure by raising, in which case the store line is
never reached). -/
theorem c1_success_only_caching {δ α : Type} (ttl : ℤ) (now : ℚ)
    (cacheD : Dida365.Cache δ) (cacheO : OnePassword.Cache α)
    (key k : String) (op op' : Resp δ) (v : α) :
    ((Dida365.runIdempotent ttl now cacheD key op).invoked = true → op.code ≠ 0 →
        (Dida365.runIdempotent ttl now cacheD key op).resp = op ∧
        (Dida365.runIdempotent ttl now cacheD key op).cache
          = Dida365.cleanupIdempotencyCache ttl now cacheD ∧
        (Dida365.runIdempotent ttl now
            (Dida365.runIdempotent ttl now cacheD key op).cache key op').invoked = true) ∧
    ((Dida365.runIdempotent ttl now cacheD key op).invoked = true → op.code = 0 →
        dictGet (Dida365.runIdempotent ttl now cacheD key op).cache key
          = some (now, op)) ∧
    ((OnePassword.runIdempotent ttl now cacheO (some k) v).invoked = true →
        dictGet (OnePassword.runIdempotent ttl now cacheO (some k) v).cache k
          = some (now, v)) := by
  refine ⟨?_, ?_, ?_⟩
  · intro hinv hcode
    unfold Dida365.runIdempotent at *
    rcases hlk : dictGet (Dida365.cleanupIdempotencyCache ttl now cacheD) key with
      _ | ⟨t, r⟩
    · simp only [hlk] at hinv ⊢
      rw [if_neg hcode]
      refine ⟨rfl, rfl, ?_⟩
      simp only [dida_cleanup_idem, hlk]
      split <;> rfl
    · simp only [hlk] at hinv ⊢
      by_cases hfresh : now - t ≤ (ttl : ℚ)
      · rw [if_pos hfresh] at hinv
        exact Bool.noConfusion hinv
      · rw [if_neg hfresh]
        rw [if_neg hcode]
        refine ⟨rfl, rfl, ?_⟩
        simp only [dida_cleanup_idem, hlk, if_neg hfresh]
        split <;> rfl
  · intro hinv hcode
    unfold Dida365.runIdempotent at *
    rcases hlk : dictGet (Dida365.cleanupIdempotencyCache ttl now cacheD) key with
      _ | ⟨t, r⟩
    · simp only [hlk] at hinv ⊢
      rw [if_pos hcode]
      exact dictGet_dictSet _ _ _
    · simp only [hlk] at hinv ⊢
      by_cases hfresh : now - t ≤ (ttl : ℚ)
      · rw [if_pos hfresh] at hinv
        exact Bool.noConfusion hinv
      · rw [if_neg hfresh, if_pos hcode]
        exact dictGet_dictSet _ _ _
  · intro hinv
    unfold OnePassword.runIdempotent at *
    rcases hlk : dictGet (OnePassword.cleanupIdempotencyCache ttl now cacheO) k with
      _ | ⟨t, r⟩
    · simp only [hlk] at hinv ⊢
      exact dictGet_dictSet _ _ _
    · simp only [hlk] at hinv ⊢
      by_cases hfresh : now - t ≤ (ttl : ℚ)
      · rw [if_pos hfresh] at hinv
        exact Bool.noConfusion hinv
      · rw [if_neg hfresh]
        exact dictGet_dictSet _ _ _

/-- C1 witness: the amended theorem instantiated at a concrete failed
write followed by a concrete successful write. -/
theorem c1_success_only_caching_witness :
    (Dida365.runIdempotent (δ := Unit) 300 1000 [] "k" ⟨1, "boom", ()⟩).resp
        = ⟨1, "boom", ()⟩ ∧
    dictGet (Dida365.runIdempotent (δ := Unit) 300 1000 [] "k" ⟨0, "ok", ()⟩).cache "k"
        = some (1000, ⟨0, "ok", ()⟩) := by
  constructor
  · exact ((c1_success_only_caching (α := Unit) 300 1000 [] [] "k" "k"
      ⟨1, "boom", ()⟩ ⟨1, "boom", ()⟩ ()).1
      (by norm_num [Dida365.runIdempotent, Dida365.cleanupIdempotencyCache, dictGet])
      (by decide)).1
  · exact (c1_success_only_caching (α := Unit) 300 1000 [] [] "k" "k"
      ⟨0, "ok", ()⟩ ⟨0, "ok", ()⟩ ()).2.1
      (by norm_num [Dida365.runIdempotent, Dida365.cleanupIdempotencyCache, dictGet])
      (by decide)

end Pytbox

namespace Pytbox.RetryConfig

/-- `NetboxClient.__init__`: `self.max_retries = min(max(max_retries, 1), 3)`. -/
def netboxClampMaxRetries (x : ℤ) : ℤ := min (max x 1) 3

/-- `Dida365.__init__`: `self.max_retries = min(max_retries, 3)` — there is
no lower clamp. -/
def didaClampMaxRetries (x : ℤ) : ℤ := min x 3

/-- `AliyunClient.call`: `retries = min(max(self.cfg.retries, 0), 3)`. -/
def aliyunClampRetries (x : ℤ) : ℤ := min (max x 0) 3

/-- Number of iterations of Python `for attempt in range(1, m + 1)` when
every iteration continues, i.e. the maximum number of attempts of the
Netbox/Dida365 retry loops. -/
def loopAttempts (m : ℤ) : ℤ := max m 0

/-- Maximum attempt count of `NetboxClient._request_with_retry`
(`for attempt in range(1, self.max_retries + 1)`). -/
def netboxEffectiveMaxAttempts (x : ℤ) : ℤ := loopAttempts (netboxClampMaxRetries x)

/-- Maximum attempt count of `Dida365._request_with_retry`
(`for attempt in range(1, self.max_retries + 1)`). -/
def didaEffectiveMaxAttempts (x : ℤ) : ℤ := loopAttempts (didaClampMaxRetries x)

/-- Maximum attempt count of `AliyunClient.call`
(`for attempt in range(retries + 1)`). -/
def aliyunEffectiveMaxAttempts (x : ℤ) : ℤ := aliyunClampRetries x + 1

end Pytbox.RetryConfig

namespace Pytbox

/-- C2 (counterexample): the clamp into 1..3 attempts fails on two of the
three cited constructors.  `Dida365` with caller-supplied
`max_retries = 0` performs zero attempts (the claim promises at least
one), and `AliyunClient` with `cfg.retries = 4` performs four attempts
(the claim promises at most three). -/
theorem c2_counterexample :
    RetryConfig.didaEffectiveMaxAttempts 0 = 0 ∧
    RetryConfig.aliyunEffectiveMaxAttempts 4 = 4 := by
  constructor <;> decide

/-- C2 (amended): `NetboxClient` clamps the attempt budget into 1..3 as
claimed; `Dida365` clamps only from above (`min(max_retries, 3)`), so
any value below 1 yields that few (possibly zero) attempts while values
of at least 1 give 1..3 attempts; `AliyunClient` clamps its retry count
into 0..3 and performs `retries + 1` attempts, i.e. between 1 and 4. -/
theorem c2_effective_attempt_clamps (x : ℤ) :
    (1 ≤ RetryConfig.netboxEffectiveMaxAttempts x ∧
      RetryConfig.netboxEffectiveMaxAttempts x ≤ 3) ∧
    (0 ≤ RetryConfig.didaEffectiveMaxAttempts x ∧
      RetryConfig.didaEffectiveMaxAttempts x ≤ 3 ∧
      (1 ≤ x → 1 ≤ RetryConfig.didaEffectiveMaxAttempts x)) ∧
    (1 ≤ RetryConfig.aliyunEffectiveMaxAttempts x ∧
      RetryConfig.aliyunEffectiveMaxAttempts x ≤ 4) := by
  unfold RetryConfig.netboxEffectiveMaxAttempts RetryConfig.didaEffectiveMaxAttempts
    RetryConfig.aliyunEffectiveMaxAttempts RetryConfig.netboxClampMaxRetries
    RetryConfig.didaClampMaxRetries RetryConfig.aliyunClampRetries RetryConfig.loopAttempts
  omega

/-- C2 witness: the amended clamp bounds at the concrete configuration
value 7. -/
theorem c2_effective_attempt_clamps_witness :
    RetryConfig.netboxEffectiveMaxAttempts 7 ≤ 3 ∧
    (1 ≤ (7 : ℤ) → 1 ≤ RetryConfig.didaEffectiveMaxAttempts 7) :=
  ⟨(c2_effective_attempt_clamps 7).1.2, (c2_effective_attempt_clamps 7).2.1.2.2⟩

end Pytbox

namespace Pytbox.Str

/-- Python `str.lower()` (ASCII, which covers every pattern the
classifiers test). -/
def pyLower (s : String) : String := String.mk (s.data.map Char.toLower)

/-- Python `str.strip()`: drop whitespace from both ends. -/
def pyStrip (s : String) : String :=
  String.mk (((s.data.dropWhile Char.isWhitespace).reverse.dropWhile
    Char.isWhitespace).reverse)

/-- Substring test on character lists. -/
def hasSub (needle : List Char) : List Char → Bool
  | [] => needle.isEmpty
  | c :: rest => needle.isPrefixOf (c :: rest) || hasSub needle rest

/-- Python `needle in hay` on strings. -/
def pyIn (needle hay : String) : Bool := hasSub needle.data hay.data

end Pytbox.Str

namespace Pytbox.Aliyun

open Pytbox.Str

/-- The failure input of `map_tea_exception`: a Tea
`UnretryableException`, some other non-`TeaException` (carrying
`str(e)`), or a `TeaException` carrying `code` and `message` (with
`e.code or ""` and `e.message or str(e) or ""` already applied). -/
inductive RawError where
  | unretryable
  | plain (s : String)
  | tea (code : String) (message : String)
deriving Repr, DecidableEq

/-- The classified error returned by `map_tea_exception` (one
constructor per pytbox exception class). -/
inductive MappedError where
  | auth (msg : String)
  | permission (msg : String)
  | throttled (msg : String)
  | timeout (msg : String)
  | notFound (msg : String)
  | region (msg : String)
  | upstream (msg : String) (upstreamCode : Option String)
deriving Repr, DecidableEq

/-- The auth condition of `map_tea_exception` on the lowered
code/message. -/
def teaAuthMatch (cl ml : String) : Bool :=
  cl == "invalidaccesskeyid" || cl == "signaturedoesnotmatch" ||
    pyIn "invalidaccesskeyid" ml || pyIn "signaturedoesnotmatch" ml

/-- The permission condition of `map_tea_exception`. -/
def teaPermMatch (cl ml : String) : Bool :=
  cl == "forbidden" || cl == "accessdenied" || cl == "unauthorizedoperation" ||
    pyIn "forbidden" ml || pyIn "access denied" ml || pyIn "not authorized" ml

/-- The throttling condition of `map_tea_exception`. -/
def teaThrottleMatch (cl ml : String) : Bool :=
  pyIn "throttl" cl || cl == "toomanyrequests" ||
    pyIn "throttl" ml || pyIn "too many requests" ml

/-- The invalid-region condition of `map_tea_exception`. -/
def teaRegionMatch (cl ml : String) : Bool :=
  cl == "invalidregionid" || pyIn "invalidregionid" ml

/-- The not-found condition of `map_tea_exception`. -/
def teaNotFoundMatch (cl ml : String) : Bool :=
  pyIn "notfound" cl || pyIn "not found" ml

/-- The explicit-timeout condition (`"timeout" in x or "timed out" in x`)
used by `map_tea_exception` on both branches. -/
def timeoutLabel (x : String) : Bool :=
  pyIn "timeout" x || pyIn "timed out" x

/-- `map_tea_exception` from `pytbox/cloud/aliyun/errors.py`, transcribed
check for check in source order. -/
def mapTeaException (action : String) (e : RawError) : MappedError :=
  match e with
  | .unretryable => .upstream (action ++ " upstream unretryable error") none
  | .plain s =>
      if timeoutLabel (pyLower s) then .timeout (action ++ " timeout")
      else .upstream (action ++ " upstream error") none
  | .tea code message =>
      let code' := pyStrip code
      let msg' := pyStrip message
      let cl := pyLower code'
      let ml := pyLower msg'
      if teaAuthMatch cl ml then .auth (action ++ " auth failed")
      else if teaPermMatch cl ml then .permission (action ++ " permission denied")
      else if teaThrottleMatch cl ml then .throttled (action ++ " throttled")
      else if teaRegionMatch cl ml then .region (action ++ " invalid region")
      else if teaNotFoundMatch cl ml then .notFound (action ++ " not found")
      else if timeoutLabel ml then .timeout (action ++ " timeout")
      else .upstream (action ++ " upstream error")
        (if code' == "" then none else some code')

end Pytbox.Aliyun

namespace Pytbox.Volc

open Pytbox.Str

/-- Outcome of `json.loads`/`ResponseMetadata.Error` extraction over a
present body: either a parse failure (the bare `except` branch) or the
extracted `(Code, Message)` pair with absent fields replaced by `""`. -/
inductive BodyParse where
  | parseError
  | parsed (code : String) (message : String)
deriving Repr, DecidableEq

/-- The failure input of `map_volc_exception`: the raw `str(e)` plus the
optional `e.body` (already abstracted by its parse outcome). -/
structure RawError where
  raw : String
  body : Option BodyParse
deriving Repr, DecidableEq

/-- The classified error returned by `map_volc_exception`. -/
inductive MappedError where
  | auth (msg : String)
  | permission (msg : String)
  | throttled (msg : String)
  | timeout (msg : String)
  | upstream (msg : String)
  | invalidRequest (msg : String)
deriving Repr, DecidableEq

/-- The body-derived auth condition of `map_volc_exception`. -/
def volcAuthMatch (codeLower : String) : Bool :=
  codeLower == "unauthorized" || codeLower == "invalidaccesskey" ||
    codeLower == "signaturedoesnotmatch"

/-- The body-derived invalid-params condition of `map_volc_exception`. -/
def volcParamMatch (codeLower messageLower : String) : Bool :=
  codeLower == "paramsvalueerror" || codeLower == "missingparameter" ||
    codeLower == "invalidparameter" || pyIn "param" messageLower

/-- `map_volc_exception` from `pytbox/cloud/volc/errors.py`: the
body-derived checks run first; when none fires (or the body is absent or
unparseable) the raw-message fallback chain runs. -/
def mapVolcException (action : String) (e : RawError) : MappedError :=
  let rawMessage := pyLower e.raw
  let fallback :=
    if pyIn "timeout" rawMessage || pyIn "timed out" rawMessage then
      .timeout (action ++ " timeout")
    else if pyIn "forbidden" rawMessage || pyIn "access denied" rawMessage then
      .permission (action ++ " permission denied")
    else if pyIn "thrott" rawMessage || pyIn "too many requests" rawMessage then
      .throttled (action ++ " throttled")
    else .upstream (action ++ " upstream error")
  match e.body with
  | none => fallback
  | some .parseError => fallback
  | some (.parsed code message) =>
      let code' := pyStrip code
      let message' := pyStrip message
      let codeLower := pyLower code'
      let messageLower := pyLower message'
      if volcParamMatch codeLower messageLower then
        .invalidRequest (action ++ " invalid params: " ++ code')
      else if volcAuthMatch codeLower then .auth (action ++ " auth failed")
      else if codeLower == "forbidden" || codeLower == "accessdenied" then
        .permission (action ++ " permission denied")
      else if pyIn "thrott" codeLower || pyIn "ratelimit" messageLower then
        .throttled (action ++ " throttled")
      else fallback

end Pytbox.Volc

namespace Pytbox

open Pytbox.Str

/-- C3 (counterexample): a vendor `TeaException` whose message carries an
explicit timeout label is NOT classified as Timeout when it also matches
the auth pattern: the auth check runs before the timeout check, so
`map_tea_exception` returns an auth classification for a failure that
carries a timeout signal — contradicting the claimed order in which the
timeout check precedes the auth check. -/
theorem c3_counterexample :
    Aliyun.mapTeaException "describe" (.tea "" "timeout signaturedoesnotmatch")
        = .auth "describe auth failed" ∧
    Aliyun.timeoutLabel (pyLower (pyStrip "timeout signaturedoesnotmatch")) = true := by
  constructor <;> decide

/-- C3 (amended): first-match-wins holds, but the timeout check precedes
the auth/permission/throttling checks only for non-`TeaException`
failures.  In order: (i) the vendor-unretryable wrapper maps to Upstream
first; (ii) a non-`TeaException` with a timeout label maps to Timeout;
(iii) for a `TeaException` the auth pattern wins over everything later,
(iv) then the permission pattern, and (v) the timeout label is consulted
only after the auth, permission, throttling, region and not-found
patterns have all failed; (vi) likewise `map_volc_exception` consults its
body-derived auth pattern before any raw-message timeout signal. -/
theorem c3_classifier_order (a s code message raw : String) :
    (Aliyun.mapTeaException a .unretryable
        = .upstream (a ++ " upstream unretryable error") none) ∧
    (Aliyun.timeoutLabel (pyLower s) = true →
        Aliyun.mapTeaException a (.plain s) = .timeout (a ++ " timeout")) ∧
    (Aliyun.teaAuthMatch (pyLower (pyStrip code)) (pyLower (pyStrip message)) = true →
        Aliyun.mapTeaException a (.tea code message) = .auth (a ++ " auth failed")) ∧
    (Aliyun.teaAuthMatch (pyLower (pyStrip code)) (pyLower (pyStrip message)) = false →
      Aliyun.teaPermMatch (pyLower (pyStrip code)) (pyLower (pyStrip message)) = true →
        Aliyun.mapTeaException a (.tea code message)
          = .permission (a ++ " permission denied")) ∧
    (Aliyun.teaAuthMatch (pyLower (pyStrip code)) (pyLower (pyStrip message)) = false →
      Aliyun.teaPermMatch (pyLower (pyStrip code)) (pyLower (pyStrip message)) = false →
      Aliyun.teaThrottleMatch (pyLower (pyStrip code)) (pyLower (pyStrip message)) = false →
      Aliyun.teaRegionMatch (pyLower (pyStrip code)) (pyLower (pyStrip message)) = false →
      Aliyun.teaNotFoundMatch (pyLower (pyStrip code)) (pyLower (pyStrip message)) = false →
      Aliyun.timeoutLabel (pyLower (pyStrip message)) = true →
        Aliyun.mapTeaException a (.tea code message) = .timeout (a ++ " timeout")) ∧
    (Volc.volcParamMatch (pyLower (pyStrip code)) (pyLower (pyStrip message)) = false →
      Volc.volcAuthMatch (pyLower (pyStrip code)) = true →
        Volc.mapVolcException a ⟨raw, some (.parsed code message)⟩
          = .auth (a ++ " auth failed")) := by
  refine ⟨rfl, ?_, ?_, ?_, ?_, ?_⟩
  · intro h
    simp [Aliyun.mapTeaException, h]
  · intro h
    simp [Aliyun.mapTeaException, h]
  · intro h1 h2
    simp [Aliyun.mapTeaException, h1, h2]
  · intro h1 h2 h3 h4 h5 h6
    simp [Aliyun.mapTeaException, h1, h2, h3, h4, h5, h6]
  · intro h1 h2
    simp [Volc.mapVolcException, h1, h2]

/-- C3 witness: the amended order facts at concrete failures — a plain
timed-out error maps to Timeout, while an auth-coded `TeaException` maps
to Auth. -/
theorem c3_classifier_order_witness :
    Aliyun.mapTeaException "op" (.plain "connection timed out") = .timeout "op timeout" ∧
    Aliyun.mapTeaException "op" (.tea "InvalidAccessKeyId" "boom") = .auth "op auth failed" :=
  ⟨(c3_classifier_order "op" "connection timed out" "InvalidAccessKeyId" "boom" "").2.1
      (by decide),
   (c3_classifier_order "op" "connection timed out" "InvalidAccessKeyId" "boom" "").2.2.1
      (by decide)⟩

end Pytbox

namespace Pytbox

/-- One structured log record: the arguments a `_log_step` call receives. -/
structure LogRecord where
  taskId : String
  target : String
  result : String
  durationMs : ℤ
deriving Repr, DecidableEq

/-- The log text `NetboxClient._log_step` emits
(`"task_id=%s target=%s result=%s duration_ms=%s"`). -/
def netboxLogLine (r : LogRecord) : String :=
  "task_id=" ++ r.taskId ++ " target=" ++ r.target ++ " result=" ++ r.result ++
    " duration_ms=" ++ toString r.durationMs

/-- The log text `AliyunClient._log_step` emits
(`"[aliyun] task_id=%s target=%s result=%s duration_ms=%s"`). -/
def aliyunLogLine (r : LogRecord) : String :=
  "[aliyun] task_id=" ++ r.taskId ++ " target=" ++ r.target ++ " result=" ++
    r.result ++ " duration_ms=" ++ toString r.durationMs

end Pytbox

namespace Pytbox.Netbox

open Pytbox.Str

/-- Python `str.upper()` (ASCII). -/
def pyUpper (s : String) : String := String.mk (s.data.map Char.toUpper)

/-- Python `str.rstrip("/")`. -/
def rstripSlash (s : String) : String :=
  String.mk ((s.data.reverse.dropWhile (fun c => c == '/')).reverse)

/-- Client state after `NetboxClient.__init__`: url is rstripped,
`max_retries` clamped by `min(max(max_retries, 1), 3)`. -/
structure Config where
  url : String
  token : String
  maxRetries : ℕ
  retryBackoffBase : ℚ
deriving Repr, DecidableEq

/-- `NetboxClient.__init__` on the fields the executor reads. -/
def mkConfig (url token : String) (maxRetries : ℤ) (retryBackoffBase : ℚ) : Config :=
  ⟨rstripSlash url, token, (min (max maxRetries 1) 3).toNat, retryBackoffBase⟩

/-- The `self.headers` dict (carries the secret token). -/
def headers (token : String) : List (String × String) :=
  [("Authorization", "Token " ++ token), ("Content-Type", "application/json")]

/-- `NetboxClient._join_url`. -/
def joinUrl (cfgUrl apiUrl : String) : String :=
  if "http://".isPrefixOf apiUrl || "https://".isPrefixOf apiUrl then apiUrl
  else if "/".isPrefixOf apiUrl then cfgUrl ++ apiUrl
  else cfgUrl ++ "/" ++ apiUrl

/-- What one `requests.request` call does: return an HTTP status with a
parsed payload (`_safe_json` applied), or raise. -/
inductive HttpOutcome (π : Type) where
  | http (status : ℕ) (payload : π)
  | exc (err : String)
deriving Repr, DecidableEq

/-- The `data` payloads `_request_with_retry` can put in a response. -/
inductive NbData (π : Type) where
  | payload (p : π)
  | httpErr (status : ℕ) (err : π) (attempt : ℕ)
  | excErr (err : String) (attempt : ℕ)
  | noData
deriving Repr, DecidableEq

/-- Execution trace of one `_request_with_retry` call: the returned
response, how many times the HTTP request was issued, the backoff sleeps
in order, and the log records in order. -/
structure RunTrace (δ : Type) where
  resp : Resp δ
  calls : ℕ
  sleeps : List ℚ
  logs : List LogRecord
deriving Repr, DecidableEq

/-- `NetboxClient._is_retryable_status`. -/
def isRetryableStatus (status : ℕ) : Bool :=
  status == 429 || decide (500 ≤ status)

/-- An attempt outcome that the loop retries when budget remains: a
raised request exception, or a non-2xx response with a retryable
status. -/
def isRetryableFailure {π : Type} : HttpOutcome π → Bool
  | .http s _ => !(decide (200 ≤ s ∧ s < 300)) && isRetryableStatus s
  | .exc _ => true

/-- The retry loop of `NetboxClient._request_with_retry`.  `m` is
`self.max_retries`, `attempt` the 1-based loop counter, and the fuel is
the number of remaining iterations (`m + 1 - attempt`); exhausting it
reaches the `exhausted retries` return after the loop.  `outcomes`
abstracts `requests.request` per attempt, `tids` the per-attempt
`uuid.uuid4().hex[:8]`, and `durs` the measured duration in ms. -/
def requestLoop {π : Type} (base : ℚ) (m : ℕ) (outcomes : ℕ → HttpOutcome π)
    (tids : ℕ → String) (durs : ℕ → ℤ) (methodUpper apiUrl : String) :
    ℕ → ℕ → RunTrace (NbData π)
  | _, 0 => ⟨⟨1, methodUpper ++ " " ++ apiUrl ++ " exhausted retries", .noData⟩, 0, [], []⟩
  | attempt, fuel + 1 =>
      match outcomes attempt with
      | .http status payload =>
          if 200 ≤ status ∧ status < 300 then
            ⟨⟨0, methodUpper ++ " " ++ apiUrl ++ " success", .payload payload⟩, 1, [],
              [⟨tids attempt, apiUrl, "ok", durs attempt⟩]⟩
          else
            if isRetryableStatus status ∧ attempt < m then
              let rest := requestLoop base m outcomes tids durs methodUpper apiUrl
                (attempt + 1) fuel
              ⟨rest.resp, rest.calls + 1, base * 2 ^ (attempt - 1) :: rest.sleeps,
                ⟨tids attempt, apiUrl, "retry", durs attempt⟩ :: rest.logs⟩
            else
              ⟨⟨1, methodUpper ++ " " ++ apiUrl ++ " failed",
                  .httpErr status payload attempt⟩, 1, [],
                [⟨tids attempt, apiUrl, "fail", durs attempt⟩]⟩
      | .exc err =>
          if attempt < m then
            let rest := requestLoop base m outcomes tids durs methodUpper apiUrl
              (attempt + 1) fuel
            ⟨rest.resp, rest.calls + 1, base * 2 ^ (attempt - 1) :: rest.sleeps,
              ⟨tids attempt, apiUrl, "retry", durs attempt⟩ :: rest.logs⟩
          else
            ⟨⟨1, methodUpper ++ " " ++ apiUrl ++ " exception", .excErr err attempt⟩,
              1, [], [⟨tids attempt, apiUrl, "fail", durs attempt⟩]⟩

/-- `NetboxClient._request_with_retry`: the unconfigured-url guard, then
the retry loop starting at attempt 1.  The remote side is abstracted by
`outcomes`, applied to the resolved URL and the headers (which carry the
token) so that the environment may in principle observe them. -/
def requestWithRetry {π : Type} (cfg : Config)
    (outcomes : String → List (String × String) → ℕ → HttpOutcome π)
    (tids : ℕ → String) (durs : ℕ → ℤ) (method apiUrl : String) :
    RunTrace (NbData π) :=
  if cfg.url = "" ∧ ¬ ("http".isPrefixOf apiUrl) then
    ⟨⟨1, "netbox url is not configured", .noData⟩, 0, [], []⟩
  else
    requestLoop cfg.retryBackoffBase cfg.maxRetries
      (outcomes (joinUrl cfg.url apiUrl) (headers cfg.token)) tids durs
      (pyUpper method) apiUrl 1 cfg.maxRetries

end Pytbox.Netbox

namespace Pytbox.Aliyun

/-- The pytbox exception class name of a mapped error, as
`exc.__class__.__name__` sees it. -/
def className : MappedError → String
  | .auth _ => "AuthError"
  | .permission _ => "PermissionError"
  | .throttled _ => "ThrottledError"
  | .timeout _ => "TimeoutError"
  | .notFound _ => "NotFoundError"
  | .region _ => "RegionError"
  | .upstream _ _ => "UpstreamError"

/-- `AliyunClient._is_retryable_error`:
`exc.__class__.__name__ in {"ThrottledError", "TimeoutError", "UpstreamError"}`. -/
def isRetryableError (e : MappedError) : Bool :=
  className e == "ThrottledError" || className e == "TimeoutError" ||
    className e == "UpstreamError"

/-- What one `self._invoke_with_timeout(fn)` does: return the SDK value,
raise `FutureTimeoutError` on deadline expiry, or raise some other
exception (given here pre-mapping, as `map_tea_exception`'s input). -/
inductive CallOutcome (ρ : Type) where
  | ok (v : ρ)
  | futureTimeout
  | exc (e : RawError)
deriving Repr, DecidableEq

/-- The value `AliyunClient.call` produces: a returned SDK response or a
raised mapped exception. -/
inductive CallResult (ρ : Type) where
  | ok (v : ρ)
  | raised (e : MappedError)
deriving Repr, DecidableEq

/-- Execution trace of one `AliyunClient.call`. -/
structure CallTrace (ρ : Type) where
  result : CallResult ρ
  calls : ℕ
  sleeps : List ℚ
  logs : List LogRecord
deriving Repr, DecidableEq

/-- The retry loop of `AliyunClient.call` (`for attempt in
range(retries + 1)`): `attempt` is the 0-based counter, the fuel is the
number of remaining iterations (`retries + 1 - attempt`); exhausting it
reaches the `unknown aliyun call failure` raise after the loop.  One
`task_id` is drawn for the whole call; `durs` gives each attempt's
duration in ms. -/
def callLoop {ρ : Type} (base : ℚ) (action : String) (retries : ℕ)
    (outcomes : ℕ → CallOutcome ρ) (taskId : String) (durs : ℕ → ℤ) :
    ℕ → ℕ → CallTrace ρ
  | _, 0 => ⟨.raised (mapTeaException action (.plain "unknown aliyun call failure")),
      0, [], []⟩
  | attempt, fuel + 1 =>
      let target := "aliyun:" ++ action
      match outcomes attempt with
      | .ok v =>
          ⟨.ok v, 1, [], [⟨taskId, target, action ++ "_ok", durs attempt⟩]⟩
      | .futureTimeout =>
          let mapped := mapTeaException action (.plain "timed out")
          let result := if attempt < retries then action ++ "_timeout_retry"
            else action ++ "_timeout_fail"
          if attempt < retries ∧ isRetryableError mapped = true then
            let rest := callLoop base action retries outcomes taskId durs
              (attempt + 1) fuel
            ⟨rest.result, rest.calls + 1, base * 2 ^ attempt :: rest.sleeps,
              ⟨taskId, target, result, durs attempt⟩ :: rest.logs⟩
          else
            ⟨.raised mapped, 1, [], [⟨taskId, target, result, durs attempt⟩]⟩
      | .exc e =>
          let mapped := mapTeaException action e
          let result := if attempt < retries then action ++ "_retry"
            else action ++ "_fail"
          if attempt < retries ∧ isRetryableError mapped = true then
            let rest := callLoop base action retries outcomes taskId durs
              (attempt + 1) fuel
            ⟨rest.result, rest.calls + 1, base * 2 ^ attempt :: rest.sleeps,
              ⟨taskId, target, result, durs attempt⟩ :: rest.logs⟩
          else
            ⟨.raised mapped, 1, [], [⟨taskId, target, result, durs attempt⟩]⟩

/-- `AliyunClient.call`: clamp `cfg.retries` by `min(max(retries, 0), 3)`
and run the loop from attempt 0 with `retries + 1` iterations. -/
def call {ρ : Type} (base : ℚ) (action : String) (cfgRetries : ℤ)
    (outcomes : ℕ → CallOutcome ρ) (taskId : String) (durs : ℕ → ℤ) :
    CallTrace ρ :=
  let retries := (min (max cfgRetries 0) 3).toNat
  callLoop base action retries outcomes taskId durs 0 (retries + 1)

/-- An attempt outcome `call` retries when budget remains. -/
def isRetryableOutcome {ρ : Type} (action : String) : CallOutcome ρ → Bool
  | .ok _ => false
  | .futureTimeout => isRetryableError (mapTeaException action (.plain "timed out"))
  | .exc e => isRetryableError (mapTeaException action e)

end Pytbox.Aliyun

namespace Pytbox

/-- Retry-budget shape of the Netbox loop: starting at attempt `a` with
matching fuel, `N - 1` retryable failures followed by a 2xx success give
a success response, exactly `N` underlying calls, and geometric backoff
sleeps indexed from `a`. -/
theorem netbox_requestLoop_budget {π : Type} (base : ℚ) (m : ℕ)
    (outcomes : ℕ → Netbox.HttpOutcome π) (tids : ℕ → String) (durs : ℕ → ℤ)
    (methodUpper apiUrl : String) :
    ∀ (N a : ℕ), 1 ≤ N → 1 ≤ a → a + N ≤ m + 1 →
      (∀ i, i < N - 1 → Netbox.isRetryableFailure (outcomes (a + i)) = true) →
      ∀ (s : ℕ) (p : π), outcomes (a + N - 1) = .http s p → 200 ≤ s → s < 300 →
      (Netbox.requestLoop base m outcomes tids durs methodUpper apiUrl
          a (m + 1 - a)).resp.code = 0 ∧
      (Netbox.requestLoop base m outcomes tids durs methodUpper apiUrl
          a (m + 1 - a)).calls = N ∧
      (Netbox.requestLoop base m outcomes tids durs methodUpper apiUrl
          a (m + 1 - a)).sleeps
        = (List.range (N - 1)).map (fun i => base * 2 ^ (a + i - 1)) := by
  intro N
  induction N with
  | zero => intro a h1; omega
  | succ n ih =>
      intro a hN ha hbound hfail s p hsucc hs1 hs2
      have hfuel : m + 1 - a = (m - a) + 1 := by omega
      rw [hfuel]
      cases n with
      | zero =>
          have hs : outcomes a = .http s p := by
            have : a + 1 - 1 = a := by omega
            rw [this] at hsucc; exact hsucc
          simp only [Netbox.requestLoop, hs]
          rw [if_pos ⟨hs1, hs2⟩]
          exact ⟨rfl, rfl, by simp⟩
      | succ n' =>
          have hfa : Netbox.isRetryableFailure (outcomes a) = true := by
            have := hfail 0 (by omega)
            simpa using this
          have hlt : a < m := by omega
          have hshift :
              (Netbox.requestLoop base m outcomes tids durs methodUpper apiUrl
                  (a + 1) (m - a)).resp.code = 0 ∧
              (Netbox.requestLoop base m outcomes tids durs methodUpper apiUrl
                  (a + 1) (m - a)).calls = n' + 1 ∧
              (Netbox.requestLoop base m outcomes tids durs methodUpper apiUrl
                  (a + 1) (m - a)).sleeps
                = (List.range (n' + 1 - 1)).map (fun i => base * 2 ^ (a + 1 + i - 1)) := by
            have h' := ih (a + 1) (by omega) (by omega) (by omega)
              (fun i hi => by
                have := hfail (i + 1) (by omega)
                have harg : a + (i + 1) = a + 1 + i := by omega
                rw [harg] at this
                exact this)
              s p
              (by
                have harg : a + 1 + (n' + 1) - 1 = a + (n' + 1 + 1) - 1 := by omega
                rw [harg]; exact hsucc)
              hs1 hs2
            have hfuel' : m + 1 - (a + 1) = m - a := by omega
            rw [hfuel'] at h'
            exact h'
          obtain ⟨ih1, ih2, ih3⟩ := hshift
          cases ho : outcomes a with
          | http st pl =>
              rw [ho] at hfa
              have h2xx : ¬ (200 ≤ st ∧ st < 300) := by
                intro hc
                simp [Netbox.isRetryableFailure, hc] at hfa
              have hrs : Netbox.isRetryableStatus st = true := by
                simp [Netbox.isRetryableFailure] at hfa
                exact hfa.2
              simp only [Netbox.requestLoop, ho]
              rw [if_neg h2xx, if_pos ⟨hrs, hlt⟩]
              refine ⟨ih1, ?_, ?_⟩
              · simp only [ih2]
              · simp only [ih3]
                have hfun : (fun i => base * 2 ^ (a + 1 + i - 1))
                    = (fun i => base * 2 ^ (a + (i + 1) - 1)) := by
                  funext i
                  have h : a + 1 + i - 1 = a + (i + 1) - 1 := by omega
                  rw [h]
                rw [hfun]
                rw [show n' + 1 - 1 = n' by omega, show n' + 1 + 1 - 1 = n' + 1 by omega]
                rw [List.range_succ_eq_map, List.map_cons, List.map_map]
                rfl
          | exc err =>
              simp only [Netbox.requestLoop, ho]
              rw [if_pos hlt]
              refine ⟨ih1, ?_, ?_⟩
              · simp only [ih2]
              · simp only [ih3]
                have hfun : (fun i => base * 2 ^ (a + 1 + i - 1))
                    = (fun i => base * 2 ^ (a + (i + 1) - 1)) := by
                  funext i
                  have h : a + 1 + i - 1 = a + (i + 1) - 1 := by omega
                  rw [h]
                rw [hfun]
                rw [show n' + 1 - 1 = n' by omega, show n' + 1 + 1 - 1 = n' + 1 by omega]
                rw [List.range_succ_eq_map, List.map_cons, List.map_map]
                rfl

end Pytbox

namespace Pytbox

/-- Retry-budget shape of the Aliyun loop: starting at attempt `a` with
matching fuel, `N - 1` retryable failures followed by a returned SDK
value give that value, exactly `N` underlying invocations, and geometric
backoff sleeps indexed from `a`. -/
theorem aliyun_callLoop_budget {ρ : Type} (base : ℚ) (action : String)
    (retries : ℕ) (outcomes : ℕ → Aliyun.CallOutcome ρ) (taskId : String)
    (durs : ℕ → ℤ) :
    ∀ (N a : ℕ), 1 ≤ N → a + N ≤ retries + 1 →
      (∀ i, i < N - 1 →
        Aliyun.isRetryableOutcome action (outcomes (a + i)) = true) →
      ∀ (v : ρ), outcomes (a + N - 1) = .ok v →
      (Aliyun.callLoop base action retries outcomes taskId durs
          a (retries + 1 - a)).result = .ok v ∧
      (Aliyun.callLoop base action retries outcomes taskId durs
          a (retries + 1 - a)).calls = N ∧
      (Aliyun.callLoop base action retries outcomes taskId durs
          a (retries + 1 - a)).sleeps
        = (List.range (N - 1)).map (fun i => base * 2 ^ (a + i)) := by
  intro N
  induction N with
  | zero => intro a h1; omega
  | succ n ih =>
      intro a hN hbound hfail v hsucc
      have hfuel : retries + 1 - a = (retries - a) + 1 := by omega
      rw [hfuel]
      cases n with
      | zero =>
          have hs : outcomes a = .ok v := by
            have : a + 1 - 1 = a := by omega
            rw [this] at hsucc; exact hsucc
          simp only [Aliyun.callLoop, hs]
          exact ⟨trivial, trivial, by simp⟩
      | succ n' =>
          have hfa : Aliyun.isRetryableOutcome action (outcomes a) = true := by
            have := hfail 0 (by omega)
            simpa using this
          have hlt : a < retries := by omega
          have hshift :
              (Aliyun.callLoop base action retries outcomes taskId durs
                  (a + 1) (retries - a)).result = .ok v ∧
              (Aliyun.callLoop base action retries outcomes taskId durs
                  (a + 1) (retries - a)).calls = n' + 1 ∧
              (Aliyun.callLoop base action retries outcomes taskId durs
                  (a + 1) (retries - a)).sleeps
                = (List.range (n' + 1 - 1)).map (fun i => base * 2 ^ (a + 1 + i)) := by
            have h' := ih (a + 1) (by omega) (by omega)
              (fun i hi => by
                have := hfail (i + 1) (by omega)
                have harg : a + (i + 1) = a + 1 + i := by omega
                rw [harg] at this
                exact this)
              v
              (by
                have harg : a + 1 + (n' + 1) - 1 = a + (n' + 1 + 1) - 1 := by omega
                rw [harg]; exact hsucc)
            have hfuel' : retries + 1 - (a + 1) = retries - a := by omega
            rw [hfuel'] at h'
            exact h'
          obtain ⟨ih1, ih2, ih3⟩ := hshift
          have hsleeps : base * 2 ^ a ::
              (List.range (n' + 1 - 1)).map (fun i => base * 2 ^ (a + 1 + i))
                = (List.range (n' + 1 + 1 - 1)).map (fun i => base * 2 ^ (a + i)) := by
            have hfun : (fun i => base * 2 ^ (a + 1 + i))
                = (fun i => base * 2 ^ (a + (i + 1))) := by
              funext i
              have h : a + 1 + i = a + (i + 1) := by omega
              rw [h]
            rw [hfun]
            rw [show n' + 1 - 1 = n' by omega, show n' + 1 + 1 - 1 = n' + 1 by omega]
            rw [List.range_succ_eq_map, List.map_cons, List.map_map]
            rfl
          cases ho : outcomes a with
          | ok w => rw [ho] at hfa; simp [Aliyun.isRetryableOutcome] at hfa
          | futureTimeout =>
              rw [ho] at hfa
              have hret : Aliyun.isRetryableError
                  (Aliyun.mapTeaException action (.plain "timed out")) = true := hfa
              simp only [Aliyun.callLoop, ho]
              rw [if_pos ⟨hlt, hret⟩]
              refine ⟨ih1, ?_, ?_⟩
              · simp only [ih2]
              · simp only [ih3]
                exact hsleeps
          | exc e =>
              rw [ho] at hfa
              have hret : Aliyun.isRetryableError
                  (Aliyun.mapTeaException action e) = true := hfa
              simp only [Aliyun.callLoop, ho]
              rw [if_pos ⟨hlt, hret⟩]
              refine ⟨ih1, ?_, ?_⟩
              · simp only [ih2]
              · simp only [ih3]
                exact hsleeps

end Pytbox

namespace Pytbox

/-- C4: for every sequence of `N` retryable-classified failures
(`N` within the effective attempt budget) followed by a success, both
retrying executors return the success, invoke the underlying operation
exactly `N` times, and sleep exactly `N - 1` times with durations
`base * 2^0, …, base * 2^(N-2)`; backoff happens only before a retried
attempt, never after the final one. -/
theorem c4_retry_budget :
    (∀ (π : Type) (cfg : Netbox.Config)
        (outcomes : String → List (String × String) → ℕ → Netbox.HttpOutcome π)
        (tids : ℕ → String) (durs : ℕ → ℤ) (method apiUrl : String)
        (N s : ℕ) (p : π),
      cfg.url ≠ "" → 1 ≤ N → N ≤ cfg.maxRetries →
      (∀ i, i < N - 1 → Netbox.isRetryableFailure
        (outcomes (Netbox.joinUrl cfg.url apiUrl) (Netbox.headers cfg.token)
          (1 + i)) = true) →
      outcomes (Netbox.joinUrl cfg.url apiUrl) (Netbox.headers cfg.token) N
          = .http s p →
      200 ≤ s → s < 300 →
        (Netbox.requestWithRetry cfg outcomes tids durs method apiUrl).resp.code = 0 ∧
        (Netbox.requestWithRetry cfg outcomes tids durs method apiUrl).calls = N ∧
        (Netbox.requestWithRetry cfg outcomes tids durs method apiUrl).sleeps
          = (List.range (N - 1)).map (fun i => cfg.retryBackoffBase * 2 ^ i)) ∧
    (∀ (ρ : Type) (base : ℚ) (action : String) (cfgRetries : ℤ)
        (outcomes : ℕ → Aliyun.CallOutcome ρ) (taskId : String) (durs : ℕ → ℤ)
        (N : ℕ) (v : ρ),
      1 ≤ N → (N : ℤ) ≤ RetryConfig.aliyunEffectiveMaxAttempts cfgRetries →
      (∀ i, i < N - 1 →
        Aliyun.isRetryableOutcome action (outcomes i) = true) →
      outcomes (N - 1) = .ok v →
        (Aliyun.call base action cfgRetries outcomes taskId durs).result = .ok v ∧
        (Aliyun.call base action cfgRetries outcomes taskId durs).calls = N ∧
        (Aliyun.call base action cfgRetries outcomes taskId durs).sleeps
          = (List.range (N - 1)).map (fun i => base * 2 ^ i)) := by
  constructor
  · intro π cfg outcomes tids durs method apiUrl N s p hurl hN hbound hfail hsucc hs1 hs2
    have hguard : ¬ (cfg.url = "" ∧ ¬ ("http".isPrefixOf apiUrl)) := fun hc => hurl hc.1
    have h := netbox_requestLoop_budget cfg.retryBackoffBase cfg.maxRetries
      (outcomes (Netbox.joinUrl cfg.url apiUrl) (Netbox.headers cfg.token)) tids durs
      (Netbox.pyUpper method) apiUrl N 1 hN (le_refl 1) (by omega) hfail s p
      (by rw [show 1 + N - 1 = N by omega]; exact hsucc) hs1 hs2
    rw [show cfg.maxRetries + 1 - 1 = cfg.maxRetries by omega] at h
    have hfun : (fun i => cfg.retryBackoffBase * 2 ^ (1 + i - 1))
        = (fun i => cfg.retryBackoffBase * 2 ^ i) := by
      funext i
      rw [show 1 + i - 1 = i by omega]
    rw [hfun] at h
    unfold Netbox.requestWithRetry
    rw [if_neg hguard]
    exact h
  · intro ρ base action cfgRetries outcomes taskId durs N v hN hbound hfail hsucc
    have hbound' : N ≤ (min (max cfgRetries 0) 3).toNat + 1 := by
      unfold RetryConfig.aliyunEffectiveMaxAttempts RetryConfig.aliyunClampRetries
        at hbound
      omega
    have h := aliyun_callLoop_budget base action ((min (max cfgRetries 0) 3).toNat)
      outcomes taskId durs N 0 hN (by omega)
      (fun i hi => by rw [show (0 : ℕ) + i = i by omega]; exact hfail i hi)
      v (by rw [show (0 : ℕ) + N - 1 = N - 1 by omega]; exact hsucc)
    rw [show (min (max cfgRetries 0) 3).toNat + 1 - 0
      = (min (max cfgRetries 0) 3).toNat + 1 by omega] at h
    have hfun : (fun i => base * 2 ^ (0 + i)) = (fun i => base * 2 ^ i) := by
      funext i
      rw [show (0 : ℕ) + i = i by omega]
    rw [hfun] at h
    exact h

/-- C4 witness: a 500 then a 200 for the Netbox executor (two calls),
and a timed-out first attempt then an SDK value for the Aliyun executor
(two invocations, one backoff sleep of `base * 2^0`). -/
theorem c4_retry_budget_witness :
    (Netbox.requestWithRetry (π := Unit) (Netbox.mkConfig "https://nb" "tok" 3 1)
        (fun _ _ n => if n = 1 then .http 500 () else .http 200 ())
        (fun _ => "t") (fun _ => 5) "get" "/api/x/").calls = 2 ∧
    (Aliyun.call (ρ := ℕ) 1 "desc" 2
        (fun n => if n = 0 then .futureTimeout else .ok 7)
        "t" (fun _ => 5)).sleeps = [1 * 2 ^ 0] := by
  constructor
  · exact (c4_retry_budget.1 Unit (Netbox.mkConfig "https://nb" "tok" 3 1)
      (fun _ _ n => if n = 1 then .http 500 () else .http 200 ())
      (fun _ => "t") (fun _ => 5) "get" "/api/x/" 2 200 ()
      (by decide) (by decide) (by decide)
      (fun i hi => by
        have : i = 0 := by omega
        subst this
        decide)
      (by decide) (by decide) (by decide)).2.1
  · have h := (c4_retry_budget.2 ℕ 1 "desc" 2
      (fun n => if n = 0 then .futureTimeout else .ok 7)
      "t" (fun _ => 5) 2 7
      (by decide) (by decide)
      (fun i hi => by
        have : i = 0 := by omega
        subst this
        decide)
      (by decide)).2.2
    rw [h]
    norm_num [List.range_succ]

end Pytbox

namespace Pytbox

/-- C5: only Throttled, Timeout and Upstream classifications are
retryable under `AliyunClient._is_retryable_error`, and a failure whose
classification is any other kind terminates the retry loop in the very
attempt in which it occurred — one invocation from that point, zero
backoff sleeps, regardless of how many attempts remain in the budget. -/
theorem c5_nonretryable_short_circuit :
    (∀ e : Aliyun.MappedError, Aliyun.isRetryableError e = true ↔
      ((∃ m, e = .throttled m) ∨ (∃ m, e = .timeout m) ∨
        (∃ m c, e = .upstream m c))) ∧
    (∀ (ρ : Type) (base : ℚ) (action : String) (retries : ℕ)
        (outcomes : ℕ → Aliyun.CallOutcome ρ) (taskId : String) (durs : ℕ → ℤ)
        (attempt fuel : ℕ) (e : Aliyun.RawError),
      outcomes attempt = .exc e →
      Aliyun.isRetryableError (Aliyun.mapTeaException action e) = false →
        (Aliyun.callLoop base action retries outcomes taskId durs attempt
            (fuel + 1)).result = .raised (Aliyun.mapTeaException action e) ∧
        (Aliyun.callLoop base action retries outcomes taskId durs attempt
            (fuel + 1)).calls = 1 ∧
        (Aliyun.callLoop base action retries outcomes taskId durs attempt
            (fuel + 1)).sleeps = []) ∧
    (∀ (ρ : Type) (base : ℚ) (action : String) (cfgRetries : ℤ)
        (outcomes : ℕ → Aliyun.CallOutcome ρ) (taskId : String) (durs : ℕ → ℤ)
        (e : Aliyun.RawError),
      outcomes 0 = .exc e →
      Aliyun.isRetryableError (Aliyun.mapTeaException action e) = false →
        (Aliyun.call base action cfgRetries outcomes taskId durs).result
            = .raised (Aliyun.mapTeaException action e) ∧
        (Aliyun.call base action cfgRetries outcomes taskId durs).calls = 1 ∧
        (Aliyun.call base action cfgRetries outcomes taskId durs).sleeps = []) := by
  have hloop : ∀ (ρ : Type) (base : ℚ) (action : String) (retries : ℕ)
      (outcomes : ℕ → Aliyun.CallOutcome ρ) (taskId : String) (durs : ℕ → ℤ)
      (attempt fuel : ℕ) (e : Aliyun.RawError),
      outcomes attempt = .exc e →
      Aliyun.isRetryableError (Aliyun.mapTeaException action e) = false →
        (Aliyun.callLoop base action retries outcomes taskId durs attempt
            (fuel + 1)).result = .raised (Aliyun.mapTeaException action e) ∧
        (Aliyun.callLoop base action retries outcomes taskId durs attempt
            (fuel + 1)).calls = 1 ∧
        (Aliyun.callLoop base action retries outcomes taskId durs attempt
            (fuel + 1)).sleeps = [] := by
    intro ρ base action retries outcomes taskId durs attempt fuel e ho hret
    simp only [Aliyun.callLoop, ho]
    rw [if_neg (by simp [hret])]
    exact ⟨rfl, rfl, rfl⟩
  refine ⟨?_, hloop, ?_⟩
  · intro e
    cases e <;> simp [Aliyun.isRetryableError, Aliyun.className]
  · intro ρ base action cfgRetries outcomes taskId durs e ho hret
    exact hloop ρ base action ((min (max cfgRetries 0) 3).toNat) outcomes taskId
      durs 0 ((min (max cfgRetries 0) 3).toNat) e ho hret

/-- C5 witness: a permission-classified vendor failure on the first
attempt stops a budget-3 call after one invocation with no sleeps. -/
theorem c5_nonretryable_short_circuit_witness :
    (Aliyun.call (ρ := ℕ) 1 "op" 3
        (fun _ => .exc (.tea "Forbidden" "x")) "t" (fun _ => 5)).calls = 1 ∧
    (Aliyun.call (ρ := ℕ) 1 "op" 3
        (fun _ => .exc (.tea "Forbidden" "x")) "t" (fun _ => 5)).sleeps = [] := by
  have h := c5_nonretryable_short_circuit.2.2 ℕ 1 "op" 3
    (fun _ => .exc (.tea "Forbidden" "x")) "t" (fun _ => 5) (.tea "Forbidden" "x")
    (by decide) (by decide)
  exact ⟨h.2.1, h.2.2⟩

end Pytbox

namespace Pytbox

/-- Python `d.get(k)` for an arbitrary decidable key type (the id-lookup
cache is keyed by the endpoint plus the canonicalized filter params). -/
def cacheGet {κ β : Type} [DecidableEq κ] : List (κ × β) → κ → Option β
  | [], _ => none
  | (k', v) :: rest, k => if k' = k then some v else cacheGet rest k

/-- Python `d[k] = v` for an arbitrary decidable key type. -/
def cacheSet {κ β : Type} [DecidableEq κ] (d : List (κ × β)) (k : κ) (v : β) :
    List (κ × β) :=
  (k, v) :: d.filter (fun p => p.1 ≠ k)

theorem cacheGet_cacheSet {κ β : Type} [DecidableEq κ]
    (d : List (κ × β)) (k : κ) (v : β) :
    cacheGet (cacheSet d k v) k = some v := by
  simp [cacheGet, cacheSet]

end Pytbox

namespace Pytbox.Netbox

/-- One element of a paginated `results` list: a JSON dict abstracted by
its `"id"` field (`none` when the key is missing), or a non-dict element
(`none` at the outer level) that `_extract_results` filters out. -/
structure ResultItem where
  id : Option ℤ
deriving Repr, DecidableEq

/-- A parsed list-query payload: a JSON dict abstracted by its `"count"`
field (`some` only when present as an int) and its `"results"` field
(`some` only when present as a list), or a non-dict payload. -/
inductive Payload where
  | page (count : Option ℤ) (results : Option (List (Option ResultItem)))
  | nonDict
deriving Repr, DecidableEq

/-- `NetboxClient._extract_results`. -/
def extractResults : Payload → List ResultItem
  | .page _ (some items) => items.filterMap id
  | _ => []

/-- `NetboxClient._extract_count`. -/
def extractCount (p : Payload) (results : List ResultItem) : ℤ :=
  match p with
  | .page (some c) _ => c
  | _ => results.length

/-- `_extract_results` applied to `response.data` of a wrapped retry
response: only a success payload can expose a `results` list (the
failure dicts have no `"results"` key). -/
def extractResultsNb : NbData Payload → List ResultItem
  | .payload p => extractResults p
  | _ => []

/-- `_extract_count` applied to `response.data` of a wrapped retry
response. -/
def extractCountNb : NbData Payload → List ResultItem → ℤ
  | .payload p, rs => extractCount p rs
  | _, rs => (rs.length : ℤ)

/-- Filter params as passed by callers: a dict whose values may be
`None`. -/
abbrev Params := List (String × Option String)

/-- `Parse.remove_dict_none_value`. -/
def removeDictNoneValue (params : Params) : List (String × String) :=
  params.filterMap (fun p => match p.2 with
    | some v => some (p.1, v)
    | none => none)

/-- `NetboxClient._build_lookup_cache_key`: the key is the endpoint plus
the sorted-key canonical serialization of the cleaned params
(`json.dumps(..., sort_keys=True)`); two cleaned dicts collide exactly
when they are equal, which the sorted association list captures. -/
def buildLookupCacheKey (apiUrl : String) (cleaned : List (String × String)) :
    String × List (String × String) :=
  (apiUrl, cleaned.mergeSort (fun a b => decide (a.1 ≤ b.1)))

/-- The `_id_lookup_cache` dict. -/
abbrev IdCache := List ((String × List (String × String)) × ℤ)

/-- The response `data` shapes `_query_single_id` can produce. -/
inductive QData where
  | noData
  | id (i : ℤ)
  | net (d : NbData Payload)
  | ambiguous (params : List (String × String)) (count : ℤ)
deriving Repr, DecidableEq

/-- A Python-level result: a returned response or an uncaught
`IndexError` (reachable when the payload's `count` disagrees with an
empty `results` list, since the source indexes `results[0]`). -/
inductive QueryResult where
  | resp (r : Resp QData)
  | indexError
deriving Repr, DecidableEq

/-- Outcome of one `_query_single_id` call: the result, the id-lookup
cache afterwards, and whether the filtered list query was issued. -/
structure QueryOutcome where
  result : QueryResult
  cache : IdCache
  networkCalled : Bool
deriving Repr, DecidableEq

/-- `NetboxClient._query_single_id`: all-`None` filters short-circuit to
"not found" with no network call; otherwise consult the lookup cache; on
a miss issue the filtered list query (abstracted by the response `net`
that `_request_with_retry` would return), pass failures through, and
decide by the extracted count: `>1` ambiguous failure carrying the
count, `0` not found, otherwise take `results[0]`, cache its id when
present, and return it. -/
def querySingleId (cache : IdCache) (apiUrl : String) (params : Params)
    (resourceName : String) (net : Resp (NbData Payload)) : QueryOutcome :=
  let cleaned := removeDictNoneValue params
  if cleaned = [] then
    ⟨.resp ⟨0, resourceName ++ " not found", .noData⟩, cache, false⟩
  else
    let key := buildLookupCacheKey apiUrl cleaned
    match cacheGet cache key with
    | some cachedId =>
        ⟨.resp ⟨0, resourceName ++ " found", .id cachedId⟩, cache, false⟩
    | none =>
        if net.code ≠ 0 then
          ⟨.resp ⟨net.code, net.msg, .net net.data⟩, cache, true⟩
        else
          let results := extractResultsNb net.data
          let count := extractCountNb net.data results
          if count > 1 then
            ⟨.resp ⟨1, resourceName ++ " has multiple results",
                .ambiguous cleaned count⟩, cache, true⟩
          else if count = 0 then
            ⟨.resp ⟨0, resourceName ++ " not found", .noData⟩, cache, true⟩
          else
            match results with
            | [] => ⟨.indexError, cache, true⟩
            | r0 :: _ =>
                match r0.id with
                | some rid =>
                    ⟨.resp ⟨0, resourceName ++ " found", .id rid⟩,
                      cacheSet cache key rid, true⟩
                | none =>
                    ⟨.resp ⟨0, resourceName ++ " found", .noData⟩, cache, true⟩

end Pytbox.Netbox

namespace Pytbox

/-- C6: `_query_single_id` short-circuits all-`None` filters to a null
success with no network call; otherwise, on a lookup-cache miss with a
successful list query, the extracted count decides the outcome — 0 gives
a null success, exactly 1 (with the match carrying an id) caches and
returns the id, and 2 or more gives a failure response whose data
carries the ambiguous params and count, never a single id. -/
theorem c6_single_id_lookup (cache : Netbox.IdCache) (apiUrl : String)
    (params : Netbox.Params) (resourceName : String)
    (net : Resp (Netbox.NbData Netbox.Payload)) :
    ((∀ kv ∈ params, kv.2 = (none : Option String)) →
        Netbox.querySingleId cache apiUrl params resourceName net
          = ⟨.resp ⟨0, resourceName ++ " not found", .noData⟩, cache, false⟩) ∧
    (Netbox.removeDictNoneValue params ≠ [] →
      cacheGet cache
        (Netbox.buildLookupCacheKey apiUrl (Netbox.removeDictNoneValue params))
          = none →
      net.code = 0 →
      ((Netbox.extractCountNb net.data (Netbox.extractResultsNb net.data) = 0 →
          Netbox.querySingleId cache apiUrl params resourceName net
            = ⟨.resp ⟨0, resourceName ++ " not found", .noData⟩, cache, true⟩) ∧
        (∀ (r0 : Netbox.ResultItem) (rest : List Netbox.ResultItem) (rid : ℤ),
          Netbox.extractCountNb net.data (Netbox.extractResultsNb net.data) = 1 →
          Netbox.extractResultsNb net.data = r0 :: rest → r0.id = some rid →
            Netbox.querySingleId cache apiUrl params resourceName net
              = ⟨.resp ⟨0, resourceName ++ " found", .id rid⟩,
                  cacheSet cache
                    (Netbox.buildLookupCacheKey apiUrl
                      (Netbox.removeDictNoneValue params)) rid, true⟩) ∧
        (Netbox.extractCountNb net.data (Netbox.extractResultsNb net.data) > 1 →
            Netbox.querySingleId cache apiUrl params resourceName net
              = ⟨.resp ⟨1, resourceName ++ " has multiple results",
                  .ambiguous (Netbox.removeDictNoneValue params)
                    (Netbox.extractCountNb net.data
                      (Netbox.extractResultsNb net.data))⟩, cache, true⟩))) := by
  constructor
  · intro hnull
    have hcl : Netbox.removeDictNoneValue params = [] := by
      unfold Netbox.removeDictNoneValue
      rw [List.filterMap_eq_nil_iff]
      intro kv hkv
      rw [hnull kv hkv]
    simp only [Netbox.querySingleId]
    rw [hcl]
    simp
  · intro hne hmiss hcode
    have hcode' : ¬ net.code ≠ 0 := fun hc => hc hcode
    refine ⟨?_, ?_, ?_⟩
    · intro hcount
      simp only [Netbox.querySingleId]
      rw [if_neg hne, hmiss]
      rw [if_neg hcode']
      rw [hcount]
      norm_num
    · intro r0 rest rid hcount hres hid
      simp only [Netbox.querySingleId]
      rw [if_neg hne, hmiss]
      rw [if_neg hcode']
      rw [hcount, hres]
      norm_num [hid]
    · intro hcount
      simp only [Netbox.querySingleId]
      rw [if_neg hne, hmiss]
      rw [if_neg hcode']
      rw [if_pos hcount]

/-- C6 witness: all-null filters never touch the network, and a
successful query whose payload reports two matches produces the
ambiguous-count failure. -/
theorem c6_single_id_lookup_witness :
    (Netbox.querySingleId [] "/api/dcim/sites/" [("name", none)] "site"
        ⟨0, "ok", .payload (.page (some 2) (some []))⟩
      = ⟨.resp ⟨0, "site not found", .noData⟩, [], false⟩) ∧
    (Netbox.querySingleId [] "/api/dcim/sites/" [("name", some "x")] "site"
        ⟨0, "ok", .payload (.page (some 2) (some []))⟩
      = ⟨.resp ⟨1, "site has multiple results",
          .ambiguous [("name", "x")] 2⟩, [], true⟩) := by
  constructor
  · exact (c6_single_id_lookup [] "/api/dcim/sites/" [("name", none)] "site"
      ⟨0, "ok", .payload (.page (some 2) (some []))⟩).1
      (by intro kv hkv; simp at hkv; rw [hkv])
  · have h := ((c6_single_id_lookup [] "/api/dcim/sites/" [("name", some "x")] "site"
      ⟨0, "ok", .payload (.page (some 2) (some []))⟩).2
      (by decide) rfl rfl).2.2 (by decide)
    have hcl : Netbox.removeDictNoneValue [("name", some "x")] = [("name", "x")] := by
      decide
    have hct : Netbox.extractCountNb
        (Resp.data ⟨0, "ok", .payload (.page (some 2) (some []))⟩)
        (Netbox.extractResultsNb
          (Resp.data ⟨0, "ok", .payload (.page (some 2) (some []))⟩)) = 2 := by
      decide
    rw [hcl, hct] at h
    exact h

end Pytbox

namespace Pytbox.Netbox

/-- Outcome of `dedupe_key_getter(item)`: a key, or a raised exception. -/
inductive KeyOutcome where
  | ok (k : String)
  | exc (err : String)
deriving Repr, DecidableEq

/-- Outcome of `worker(item)`: a returned response, or a raised
exception (caught around `future.result()`). -/
inductive WorkerOutcome (δ : Type) where
  | resp (r : Resp δ)
  | exc (err : String)
deriving Repr, DecidableEq

/-- The `data` payloads a batch result row can carry: the worker
response's data, or the synthesized error dicts of the dedupe pass and
the worker-exception fallback. -/
inductive BatchData (ι δ : Type) where
  | fromWorker (d : δ)
  | keyError (item : ι) (err : String)
  | duplicate (item : ι)
  | workerExc (err : String) (item : ι)
deriving Repr, DecidableEq

/-- One row of `BatchSummary.results`
(`{"index", "key", "code", "msg", "data"}`). -/
structure BatchResult (ι δ : Type) where
  index : ℕ
  key : String
  code : ℤ
  msg : String
  data : BatchData ι δ
deriving Repr, DecidableEq

/-- The aggregated summary dict
(`{"total", "success", "failed", "results"}`). -/
structure BatchSummary (ι δ : Type) where
  total : ℕ
  success : ℕ
  failed : ℕ
  results : List (BatchResult ι δ)
deriving Repr, DecidableEq

/-- Data of the overall batch response. -/
inductive BatchRespData (ι δ : Type) where
  | noData
  | summary (s : BatchSummary ι δ)
deriving Repr, DecidableEq

/-- State of the sequential dedupe pass of `_run_parallel_batch`:
`seen_keys`, the pre-filled `indexed_results` entries, and
`indexed_work_items`. -/
structure DedupeState (ι δ : Type) where
  seen : List String
  pre : List (ℕ × BatchResult ι δ)
  work : List (ℕ × String × ι)
deriving Repr, DecidableEq

/-- The `for index, item in enumerate(items)` dedupe loop: a raising
key getter records a key-error row, a key already in `seen_keys` records
a duplicate-item row, and a fresh key enqueues the item for the worker
pool. -/
def dedupeLoop {ι δ : Type} (target : String) (keyOf : ι → KeyOutcome) :
    ℕ → List String → List (ℕ × BatchResult ι δ) → List (ℕ × String × ι) →
    List ι → DedupeState ι δ
  | _, seen, pre, work, [] => ⟨seen, pre, work⟩
  | n, seen, pre, work, x :: rest =>
      match keyOf x with
      | .exc err =>
          dedupeLoop target keyOf (n + 1) seen
            (pre ++ [(n, ⟨n, "index:" ++ toString n, 1,
              target ++ " item key error", .keyError x err⟩)]) work rest
      | .ok k =>
          if k ∈ seen then
            dedupeLoop target keyOf (n + 1) seen
              (pre ++ [(n, ⟨n, k, 1, target ++ " duplicate item", .duplicate x⟩)])
              work rest
          else
            dedupeLoop target keyOf (n + 1) (seen ++ [k]) pre
              (work ++ [(n, k, x)]) rest

/-- The dedupe pass starting from index 0 with empty state. -/
def dedupePass {ι δ : Type} (target : String) (keyOf : ι → KeyOutcome)
    (items : List ι) : DedupeState ι δ :=
  dedupeLoop target keyOf 0 [] [] [] items

/-- Ascending insertion into an index-keyed row list (used to embed
`sorted(indexed_results)`). -/
def insertByKey {β : Type} (p : ℕ × β) : List (ℕ × β) → List (ℕ × β)
  | [] => [p]
  | q :: rest => if p.1 ≤ q.1 then p :: q :: rest else q :: insertByKey p rest

/-- Sort an index-keyed row list by index: the embedding of iterating a
dict's keys in ascending order (`sorted(indexed_results)`). -/
def sortByKey {β : Type} : List (ℕ × β) → List (ℕ × β)
  | [] => []
  | p :: rest => insertByKey p (sortByKey rest)

/-- Collection of one finished worker future into its results slot
(`indexed_results[index] = {...}`), with the synthesized failure when
the worker raised. -/
def mkBatchResult {ι δ : Type} (target : String) (worker : ι → WorkerOutcome δ)
    (w : ℕ × String × ι) : ℕ × BatchResult ι δ :=
  match worker w.2.2 with
  | .resp r => (w.1, ⟨w.1, w.2.1, r.code, r.msg, .fromWorker r.data⟩)
  | .exc err => (w.1, ⟨w.1, w.2.1, 1, target ++ " item exception",
      .workerExc err w.2.2⟩)

/-- Execution trace of one `_run_parallel_batch` call: the aggregated
response, how many items had their dedupe key computed, how many worker
invocations ran, and the emitted log records. -/
structure BatchTrace (ι δ : Type) where
  resp : Resp (BatchRespData ι δ)
  keyEvals : ℕ
  workerCalls : ℕ
  logs : List LogRecord
deriving Repr, DecidableEq

/-- `NetboxClient._run_parallel_batch`.  The guard rejects
`max_workers < 1` before anything else runs.  Concurrency is abstracted
by `order`, the completion order in which `as_completed` yields the
scheduled futures: any permutation of the enqueued work items.  Each
completed future writes its results slot keyed by the item's original
index; the final assembly reads the `indexed_results` dict keys in
ascending order (`sorted(indexed_results)`), embedded here as a sort of
the collected (index, row) pairs by index. -/
def runParallelBatch {ι δ : Type} (target : String) (items : List ι)
    (keyOf : ι → KeyOutcome) (worker : ι → WorkerOutcome δ) (maxWorkers : ℤ)
    (order : List (ℕ × String × ι)) (taskId : String) (dur : ℤ) :
    BatchTrace ι δ :=
  if maxWorkers < 1 then
    ⟨⟨1, "max_workers must be >= 1", .noData⟩, 0, 0, []⟩
  else
    let st := dedupePass (δ := δ) target keyOf items
    let workResults := order.map (mkBatchResult target worker)
    let allResults := st.pre ++ workResults
    let sortedResults := sortByKey allResults
    let ordered := sortedResults.map Prod.snd
    let successCount := (ordered.filter (fun r => r.code = 0)).length
    let failedCount := ordered.length - successCount
    let summary : BatchSummary ι δ :=
      ⟨items.length, successCount, failedCount, ordered⟩
    let logRec : LogRecord :=
      ⟨taskId, target, if failedCount = 0 then "ok" else "partial_fail", dur⟩
    if failedCount > 0 then
      ⟨⟨1, target ++ " completed with failures", .summary summary⟩,
        items.length, order.length, [logRec]⟩
    else
      ⟨⟨0, target ++ " completed", .summary summary⟩,
        items.length, order.length, [logRec]⟩

/-- The results array of the summary a batch call returned (empty for
the `max_workers` guard failure, which carries no summary). -/
def batchResults {ι δ : Type} (t : BatchTrace ι δ) : List (BatchResult ι δ) :=
  match t.resp.data with
  | .summary s => s.results
  | .noData => []

end Pytbox.Netbox

namespace Pytbox

open Pytbox.Netbox

/-- Each dedupe-loop step routes its index to exactly one of the
pre-results and the work queue: occurrence counts of indices over both
lists grow by the processed index range. -/
theorem dedupeLoop_index_count {ι δ : Type} (target : String)
    (keyOf : ι → KeyOutcome) (items : List ι) :
    ∀ (n : ℕ) (seen : List String) (pre : List (ℕ × BatchResult ι δ))
      (work : List (ℕ × String × ι)) (m : ℕ),
      ((dedupeLoop target keyOf n seen pre work items).pre.map Prod.fst).count m
        + ((dedupeLoop target keyOf n seen pre work items).work.map
            (fun w => w.1)).count m
      = (pre.map Prod.fst).count m + (work.map (fun w => w.1)).count m
        + (List.range' n items.length).count m := by
  induction items with
  | nil => intro n seen pre work m; simp [dedupeLoop]
  | cons x rest ih =>
      intro n seen pre work m
      simp only [dedupeLoop]
      cases hk : keyOf x with
      | exc err =>
          simp only [hk]
          rw [ih]
          simp only [List.length_cons, List.range'_succ, List.map_append,
            List.count_append, List.count_cons, List.count_singleton, List.map_cons,
            List.count_nil, List.map_nil]
          by_cases hnm : n = m <;> simp [hnm] <;> omega
      | ok k =>
          simp only [hk]
          by_cases hks : k ∈ seen
          · rw [if_pos hks, ih]
            simp only [List.length_cons, List.range'_succ, List.map_append,
              List.count_append, List.count_cons, List.count_singleton,
              List.map_cons, List.count_nil, List.map_nil]
            by_cases hnm : n = m <;> simp [hnm] <;> omega
          · rw [if_neg hks, ih]
            simp only [List.length_cons, List.range'_succ, List.map_append,
              List.count_append, List.count_cons, List.count_singleton,
              List.map_cons, List.count_nil, List.map_nil]
            by_cases hnm : n = m <;> simp [hnm] <;> omega

/-- Every pre-filled results row records its own index slot. -/
theorem dedupeLoop_pre_index {ι δ : Type} (target : String)
    (keyOf : ι → KeyOutcome) (items : List ι) :
    ∀ (n : ℕ) (seen : List String) (pre : List (ℕ × BatchResult ι δ))
      (work : List (ℕ × String × ι)),
      (∀ p ∈ pre, (Prod.snd p).index = p.1) →
      ∀ p ∈ (dedupeLoop target keyOf n seen pre work items).pre,
        (Prod.snd p).index = p.1 := by
  induction items with
  | nil => intro n seen pre work hpre; simpa [dedupeLoop] using hpre
  | cons x rest ih =>
      intro n seen pre work hpre
      simp only [dedupeLoop]
      cases hk : keyOf x with
      | exc err =>
          simp only [hk]
          apply ih
          intro p hp
          rcases List.mem_append.mp hp with h | h
          · exact hpre p h
          · simp at h
            rw [h]
      | ok k =>
          simp only [hk]
          by_cases hks : k ∈ seen
          · rw [if_pos hks]
            apply ih
            intro p hp
            rcases List.mem_append.mp hp with h | h
            · exact hpre p h
            · simp at h
              rw [h]
          · rw [if_neg hks]
            exact ih (n + 1) (seen ++ [k]) pre (work ++ [(n, k, x)]) hpre

/-- The dedupe loop only appends to the pre-filled results. -/
theorem dedupeLoop_pre_mono {ι δ : Type} (target : String)
    (keyOf : ι → KeyOutcome) (items : List ι) :
    ∀ (n : ℕ) (seen : List String) (pre : List (ℕ × BatchResult ι δ))
      (work : List (ℕ × String × ι)) (p : ℕ × BatchResult ι δ),
      p ∈ pre → p ∈ (dedupeLoop target keyOf n seen pre work items).pre := by
  induction items with
  | nil => intro n seen pre work p hp; simpa [dedupeLoop] using hp
  | cons x rest ih =>
      intro n seen pre work p hp
      simp only [dedupeLoop]
      cases hk : keyOf x with
      | exc err =>
          simp only [hk]
          exact ih _ _ _ _ p (List.mem_append.mpr (Or.inl hp))
      | ok k =>
          simp only [hk]
          by_cases hks : k ∈ seen
          · rw [if_pos hks]
            exact ih _ _ _ _ p (List.mem_append.mpr (Or.inl hp))
          · rw [if_neg hks]
            exact ih _ _ _ _ p hp

/-- A later occurrence of an already-seen dedupe key is recorded as a
duplicate-item failure row in its own index slot. -/
theorem dedupeLoop_duplicate_mem {ι δ : Type} (target : String)
    (keyOf : ι → KeyOutcome) (items : List ι) :
    ∀ (n : ℕ) (seen : List String) (pre : List (ℕ × BatchResult ι δ))
      (work : List (ℕ × String × ι)) (j : ℕ) (hj : j < items.length) (k : String),
      keyOf (items.get ⟨j, hj⟩) = .ok k →
      (k ∈ seen ∨ ∃ i, ∃ hi : i < items.length,
        i < j ∧ keyOf (items.get ⟨i, hi⟩) = .ok k) →
      (n + j, ⟨n + j, k, 1, target ++ " duplicate item",
          .duplicate (items.get ⟨j, hj⟩)⟩)
        ∈ (dedupeLoop target keyOf n seen pre work items).pre := by
  induction items with
  | nil => intro n seen pre work j hj; simp at hj
  | cons x rest ih =>
      intro n seen pre work j hj k hkj hprev
      cases j with
      | zero =>
          have hkx : keyOf x = .ok k := hkj
          have hseen : k ∈ seen := by
            rcases hprev with h | ⟨i, hi, hij, _⟩
            · exact h
            · omega
          simp only [dedupeLoop, hkx, if_pos hseen]
          apply dedupeLoop_pre_mono
          exact List.mem_append.mpr (Or.inr (by simp))
      | succ p =>
          have hkj' : keyOf (rest.get ⟨p, by simpa using hj⟩) = .ok k := hkj
          have heq : n + (p + 1) = (n + 1) + p := by omega
          rw [heq]
          simp only [dedupeLoop]
          cases hk : keyOf x with
          | exc err =>
              simp only [hk]
              apply ih
              · exact hkj'
              · rcases hprev with h | ⟨i, hi, hij, hoki⟩
                · exact Or.inl h
                · cases i with
                  | zero =>
                      have hoki' : keyOf x = KeyOutcome.ok k := by simpa using hoki
                      rw [hk] at hoki'
                      exact absurd hoki' (by simp)
                  | succ q =>
                      exact Or.inr ⟨q, by simpa using hi, by omega, by simpa using hoki⟩
          | ok k' =>
              simp only [hk]
              by_cases hks : k' ∈ seen
              · rw [if_pos hks]
                apply ih
                · exact hkj'
                · rcases hprev with h | ⟨i, hi, hij, hoki⟩
                  · exact Or.inl h
                  · cases i with
                    | zero =>
                        have hoki' : keyOf x = KeyOutcome.ok k := by simpa using hoki
                        rw [hk] at hoki'
                        have hke : k' = k := by injection hoki'
                        exact Or.inl (hke ▸ hks)
                    | succ q =>
                        exact Or.inr ⟨q, by simpa using hi, by omega, by simpa using hoki⟩
              · rw [if_neg hks]
                apply ih
                · exact hkj'
                · rcases hprev with h | ⟨i, hi, hij, hoki⟩
                  · exact Or.inl (List.mem_append.mpr (Or.inl h))
                  · cases i with
                    | zero =>
                        have hoki' : keyOf x = KeyOutcome.ok k := by simpa using hoki
                        rw [hk] at hoki'
                        have hke : k' = k := by injection hoki'
                        exact Or.inl (List.mem_append.mpr (Or.inr (by simp [hke])))
                    | succ q =>
                        exact Or.inr ⟨q, by simpa using hi, by omega, by simpa using hoki⟩

/-- The work queue holds at most one item per dedupe key: exactly one
when some input item produces the key and it was not seen before. -/
theorem dedupeLoop_work_key_count {ι δ : Type} (target : String)
    (keyOf : ι → KeyOutcome) (items : List ι) (k : String) :
    ∀ (n : ℕ) (seen : List String) (pre : List (ℕ × BatchResult ι δ))
      (work : List (ℕ × String × ι)),
      ((dedupeLoop target keyOf n seen pre work items).work.filter
          (fun w => decide (w.2.1 = k))).length
        = (work.filter (fun w => decide (w.2.1 = k))).length
          + (if k ∈ seen then 0
             else if items.any (fun x => decide (keyOf x = .ok k)) then 1 else 0) := by
  induction items with
  | nil => intro n seen pre work; simp [dedupeLoop]
  | cons x rest ih =>
      intro n seen pre work
      simp only [dedupeLoop]
      cases hk : keyOf x with
      | exc err =>
          simp only [hk]
          rw [ih]
          have hany : ((x :: rest).any (fun x => decide (keyOf x = .ok k)))
              = (rest.any (fun x => decide (keyOf x = .ok k))) := by
            simp [hk]
          rw [hany]
      | ok k' =>
          simp only [hk]
          by_cases hks : k' ∈ seen
          · rw [if_pos hks, ih]
            by_cases hkk : k' = k
            · subst hkk
              rw [if_pos hks, if_pos hks]
            · have hany : ((x :: rest).any (fun x => decide (keyOf x = .ok k)))
                  = (rest.any (fun x => decide (keyOf x = .ok k))) := by
                simp [hk, hkk]
              rw [hany]
          · rw [if_neg hks, ih]
            by_cases hkk : k' = k
            · subst hkk
              rw [if_neg hks]
              have hseen' : k' ∈ seen ++ [k'] := by simp
              rw [if_pos hseen']
              have hany : ((x :: rest).any (fun x => decide (keyOf x = .ok k')))
                  = true := by
                simp [hk]
              rw [hany]
              simp [List.filter_append]
            · have hseen' : (k ∈ seen ++ [k']) ↔ (k ∈ seen) := by
                simp only [List.mem_append, List.mem_singleton]
                constructor
                · rintro (h | h)
                  · exact h
                  · exact absurd h.symm hkk
                · exact Or.inl
              have hany : ((x :: rest).any (fun x => decide (keyOf x = .ok k)))
                  = (rest.any (fun x => decide (keyOf x = .ok k))) := by
                simp [hk, hkk]
              rw [hany]
              have hfil : ((work ++ [(n, k', x)]).filter
                  (fun w => decide (w.2.1 = k))).length
                  = (work.filter (fun w => decide (w.2.1 = k))).length := by
                simp [List.filter_append, hkk]
              rw [hfil]
              by_cases hkseen : k ∈ seen
              · rw [if_pos hkseen, if_pos (hseen'.mpr hkseen)]
              · rw [if_neg hkseen, if_neg (fun hc => hkseen (hseen'.mp hc))]

end Pytbox

namespace Pytbox

open Pytbox.Netbox

/-- Inserting a row keeps the multiset of rows. -/
theorem insertByKey_perm {β : Type} (p : ℕ × β) (l : List (ℕ × β)) :
    (insertByKey p l).Perm (p :: l) := by
  induction l with
  | nil => simp [insertByKey]
  | cons q rest ih =>
      simp only [insertByKey]
      split
      · exact List.Perm.refl _
      · exact (ih.cons q).trans (List.Perm.swap p q rest)

/-- `sortByKey` is a permutation of its input. -/
theorem sortByKey_perm {β : Type} (l : List (ℕ × β)) : (sortByKey l).Perm l := by
  induction l with
  | nil => simp [sortByKey]
  | cons p rest ih =>
      exact (insertByKey_perm p (sortByKey rest)).trans (ih.cons p)

/-- Inserting into an index-sorted row list keeps it index-sorted. -/
theorem insertByKey_pairwise {β : Type} (p : ℕ × β) (l : List (ℕ × β))
    (h : l.Pairwise (fun a b => a.1 ≤ b.1)) :
    (insertByKey p l).Pairwise (fun a b => a.1 ≤ b.1) := by
  induction l with
  | nil => simp [insertByKey]
  | cons q rest ih =>
      rw [List.pairwise_cons] at h
      simp only [insertByKey]
      split
      · rename_i hpq
        rw [List.pairwise_cons]
        refine ⟨?_, List.pairwise_cons.mpr h⟩
        intro b hb
        rcases List.mem_cons.mp hb with hb | hb
        · rw [hb]; exact hpq
        · exact le_trans hpq (h.1 b hb)
      · rename_i hpq
        rw [List.pairwise_cons]
        constructor
        · intro b hb
          rcases List.mem_cons.mp ((insertByKey_perm p rest).mem_iff.mp hb)
            with hb | hb
          · rw [hb]; omega
          · exact h.1 b hb
        · exact ih h.2

/-- `sortByKey` sorts by index. -/
theorem sortByKey_pairwise {β : Type} (l : List (ℕ × β)) :
    (sortByKey l).Pairwise (fun a b => a.1 ≤ b.1) := by
  induction l with
  | nil => simp [sortByKey]
  | cons p rest ih => exact insertByKey_pairwise p (sortByKey rest) ih

/-- Sorting the collected (index, row) pairs of a batch by index yields
exactly the index sequence `0, …, M-1` whenever the collected indices
are a permutation of it. -/
theorem sorted_keys_eq_range {ι δ : Type} (l : List (ℕ × BatchResult ι δ)) (M : ℕ)
    (hperm : (l.map Prod.fst).Perm (List.range M)) :
    (sortByKey l).map Prod.fst = List.range M := by
  have hperm2 : ((sortByKey l).map Prod.fst).Perm (List.range M) :=
    ((sortByKey_perm l).map Prod.fst).trans hperm
  have hsorted2 : List.Sorted (· ≤ ·) ((sortByKey l).map Prod.fst) :=
    List.Pairwise.map Prod.fst (fun a b h => h) (sortByKey_pairwise l)
  exact List.eq_of_perm_of_sorted hperm2 hsorted2 (List.pairwise_le_range M)

/-- The dedupe pass together with any completion order of the work items
covers each input index exactly once, and every collected row records
its own index. -/
theorem batch_all_characterization {ι δ : Type} (target : String) (items : List ι)
    (keyOf : ι → KeyOutcome) (worker : ι → WorkerOutcome δ)
    (order : List (ℕ × String × ι))
    (horder : order.Perm (dedupePass (δ := δ) target keyOf items).work) :
    (((dedupePass (δ := δ) target keyOf items).pre
        ++ order.map (mkBatchResult target worker)).map Prod.fst).Perm
      (List.range items.length) ∧
    (∀ p ∈ (dedupePass (δ := δ) target keyOf items).pre
        ++ order.map (mkBatchResult target worker),
      (Prod.snd p).index = p.1) := by
  constructor
  · rw [List.perm_iff_count]
    intro m
    have hmapmk : (order.map (mkBatchResult (δ := δ) target worker)).map Prod.fst
        = order.map (fun w => w.1) := by
      rw [List.map_map]
      apply List.map_congr_left
      intro w _
      simp only [Function.comp_apply, mkBatchResult]
      split <;> rfl
    have hcnt := dedupeLoop_index_count (δ := δ) target keyOf items 0 [] [] [] m
    have hocount : ((order.map (mkBatchResult (δ := δ) target worker)).map
        Prod.fst).count m
        = ((dedupePass (δ := δ) target keyOf items).work.map
            (fun w => w.1)).count m := by
      rw [hmapmk]
      exact (horder.map (fun w => w.1)).count_eq m
    rw [List.map_append, List.count_append, hocount]
    unfold dedupePass at *
    rw [hcnt]
    simp [List.range_eq_range']
  · intro p hp
    rcases List.mem_append.mp hp with h | h
    · exact dedupeLoop_pre_index target keyOf items 0 [] [] [] (by simp) p h
    · rcases List.mem_map.mp h with ⟨w, _, hw⟩
      rw [← hw]
      simp only [mkBatchResult]
      split <;> rfl

/-- With the `max_workers` guard passed, the results array of the batch
is the index-sorted collection of pre-filled and worker rows. -/
theorem batchResults_eq {ι δ : Type} (target : String) (items : List ι)
    (keyOf : ι → KeyOutcome) (worker : ι → WorkerOutcome δ) (maxWorkers : ℤ)
    (order : List (ℕ × String × ι)) (taskId : String) (dur : ℤ)
    (hmw : ¬ maxWorkers < 1) :
    batchResults (runParallelBatch target items keyOf worker maxWorkers order
        taskId dur)
      = (sortByKey ((dedupePass (δ := δ) target keyOf items).pre
          ++ order.map (mkBatchResult target worker))).map Prod.snd := by
  simp only [runParallelBatch]
  rw [if_neg hmw]
  split <;> rfl

/-- In an index-sorted row list whose keys are exactly `0, …, M-1`, the
row stored under index `j` sits at position `j`. -/
theorem sorted_get_of_mem {ι δ : Type} (sortedRows : List (ℕ × BatchResult ι δ))
    (M j : ℕ) (r : BatchResult ι δ)
    (hkeys : sortedRows.map Prod.fst = List.range M)
    (hmem : (j, r) ∈ sortedRows) :
    ∀ (h : j < (sortedRows.map Prod.snd).length),
      (sortedRows.map Prod.snd).get ⟨j, h⟩ = r := by
  intro h
  obtain ⟨⟨p, hp⟩, hget⟩ := List.get_of_mem hmem
  have hlen : (sortedRows.map Prod.fst).length = sortedRows.length :=
    List.length_map _ _
  have hp' : p < (sortedRows.map Prod.fst).length := by omega
  have hkey : (sortedRows.map Prod.fst).get ⟨p, hp'⟩ = j := by
    rw [List.get_map]
    simp only
    rw [hget]
  have hpM : p < M := by
    have := hkeys ▸ hp'
    simpa using this
  have hpj : p = j := by
    have h2 := List.get_of_eq hkeys ⟨p, hp'⟩
    rw [hkey, List.get_range] at h2
    simpa using h2.symm
  subst hpj
  rw [List.get_map]
  simp only
  rw [hget]

end Pytbox

namespace Pytbox

open Pytbox.Netbox

/-- C7: for every input list of size `M` and `max_workers ≥ 1`, the
batch summary's results array has length `M` and `results[i].index = i`
for every `i`, for every completion order of the concurrent workers
(any permutation of the enqueued work items): each input item —
deduplicated, key-error, or worker-executed — occupies exactly its
original index slot. -/
theorem c7_batch_ordering {ι δ : Type} (target : String) (items : List ι)
    (keyOf : ι → KeyOutcome) (worker : ι → WorkerOutcome δ) (maxWorkers : ℤ)
    (order : List (ℕ × String × ι)) (taskId : String) (dur : ℤ)
    (hmw : 1 ≤ maxWorkers)
    (horder : order.Perm (dedupePass (δ := δ) target keyOf items).work) :
    (batchResults (runParallelBatch target items keyOf worker maxWorkers order
        taskId dur)).length = items.length ∧
    ∀ (i : ℕ) (h : i < (batchResults (runParallelBatch target items keyOf worker
        maxWorkers order taskId dur)).length),
      ((batchResults (runParallelBatch target items keyOf worker maxWorkers order
          taskId dur)).get ⟨i, h⟩).index = i := by
  have hmw' : ¬ maxWorkers < 1 := by omega
  have hchar := batch_all_characterization target items keyOf worker order horder
  have hkeys := sorted_keys_eq_range _ items.length hchar.1
  have hres := batchResults_eq target items keyOf worker maxWorkers order taskId
    dur hmw'
  have hsrlen : (sortByKey ((dedupePass (δ := δ) target keyOf items).pre
      ++ order.map (mkBatchResult target worker))).length = items.length := by
    have h1 := congrArg List.length hkeys
    simpa using h1
  have hlen : (batchResults (runParallelBatch target items keyOf worker maxWorkers
      order taskId dur)).length = items.length := by
    rw [hres]
    simpa using hsrlen
  refine ⟨hlen, ?_⟩
  intro i h
  have hgeteq := List.get_of_eq hres ⟨i, h⟩
  rw [hgeteq]
  have hi' : i < (sortByKey ((dedupePass (δ := δ) target keyOf items).pre
      ++ order.map (mkBatchResult target worker))).length := by omega
  have hmap : ((sortByKey ((dedupePass (δ := δ) target keyOf items).pre
      ++ order.map (mkBatchResult target worker))).map Prod.snd).get
        ⟨i, by simpa using hi'⟩
      = ((sortByKey ((dedupePass (δ := δ) target keyOf items).pre
          ++ order.map (mkBatchResult target worker))).get ⟨i, hi'⟩).2 := by
    rw [List.get_map]
  rw [hmap]
  have hmem : (sortByKey ((dedupePass (δ := δ) target keyOf items).pre
      ++ order.map (mkBatchResult target worker))).get ⟨i, hi'⟩
      ∈ (dedupePass (δ := δ) target keyOf items).pre
        ++ order.map (mkBatchResult target worker) :=
    (sortByKey_perm _).mem_iff.mp (List.get_mem _ i hi')
  rw [hchar.2 _ hmem]
  have h2 := List.get_of_eq hkeys ⟨i, by simpa using hi'⟩
  rw [List.get_map, List.get_range] at h2
  simpa using h2

/-- C7 witness: a two-item batch whose workers complete in reverse order
still reports results of length 2 with `results[1].index = 1`. -/
theorem c7_batch_ordering_witness :
    (batchResults (runParallelBatch (δ := Unit) "t" ["a", "b"]
        (fun x => .ok x) (fun _ => .resp ⟨0, "ok", ()⟩) 2
        [(1, "b", "b"), (0, "a", "a")] "tid" 5)).length = 2 ∧
    ((batchResults (runParallelBatch (δ := Unit) "t" ["a", "b"]
        (fun x => .ok x) (fun _ => .resp ⟨0, "ok", ()⟩) 2
        [(1, "b", "b"), (0, "a", "a")] "tid" 5)).get ⟨1, by decide⟩).index = 1 := by
  have h := c7_batch_ordering (δ := Unit) "t" ["a", "b"] (fun x => .ok x)
    (fun _ => .resp ⟨0, "ok", ()⟩) 2 [(1, "b", "b"), (0, "a", "a")] "tid" 5
    (by decide) (by decide)
  exact ⟨h.1, h.2 1 (by decide)⟩

end Pytbox

namespace Pytbox

open Pytbox.Netbox

/-- C8: when two items of a batch share a dedupe key, the summary marks
the later occurrence failed with the "duplicate item" message, the
worker queue holds exactly one item for that key, and the later
occurrence's index never reaches the worker queue — its worker is never
invoked. -/
theorem c8_duplicate_dedupe {ι δ : Type} (target : String) (items : List ι)
    (keyOf : ι → KeyOutcome) (worker : ι → WorkerOutcome δ) (maxWorkers : ℤ)
    (order : List (ℕ × String × ι)) (taskId : String) (dur : ℤ)
    (hmw : 1 ≤ maxWorkers)
    (horder : order.Perm (dedupePass (δ := δ) target keyOf items).work)
    (i j : ℕ) (hi : i < items.length) (hj : j < items.length) (hij : i < j)
    (k : String)
    (hki : keyOf (items.get ⟨i, hi⟩) = .ok k)
    (hkj : keyOf (items.get ⟨j, hj⟩) = .ok k) :
    (∀ (h : j < (batchResults (runParallelBatch target items keyOf worker
        maxWorkers order taskId dur)).length),
      ((batchResults (runParallelBatch target items keyOf worker maxWorkers order
          taskId dur)).get ⟨j, h⟩).code = 1 ∧
      ((batchResults (runParallelBatch target items keyOf worker maxWorkers order
          taskId dur)).get ⟨j, h⟩).msg = target ++ " duplicate item") ∧
    ((dedupePass (δ := δ) target keyOf items).work.filter
        (fun w => decide (w.2.1 = k))).length = 1 ∧
    (∀ w ∈ (dedupePass (δ := δ) target keyOf items).work, w.1 ≠ j) := by
  have hmw' : ¬ maxWorkers < 1 := by omega
  have hchar := batch_all_characterization target items keyOf worker order horder
  have hkeys := sorted_keys_eq_range _ items.length hchar.1
  have hres := batchResults_eq target items keyOf worker maxWorkers order taskId
    dur hmw'
  have hdup := dedupeLoop_duplicate_mem (δ := δ) target keyOf items 0 [] [] []
    j hj k hkj (Or.inr ⟨i, hi, hij, hki⟩)
  rw [Nat.zero_add] at hdup
  have hdup' : (j, (⟨j, k, 1, target ++ " duplicate item",
      .duplicate (items.get ⟨j, hj⟩)⟩ : BatchResult ι δ))
      ∈ (dedupePass (δ := δ) target keyOf items).pre := hdup
  refine ⟨?_, ?_, ?_⟩
  · intro h
    have hmemall : (j, (⟨j, k, 1, target ++ " duplicate item",
        .duplicate (items.get ⟨j, hj⟩)⟩ : BatchResult ι δ))
        ∈ (dedupePass (δ := δ) target keyOf items).pre
          ++ order.map (mkBatchResult target worker) :=
      List.mem_append.mpr (Or.inl hdup')
    have hmemsr : (j, (⟨j, k, 1, target ++ " duplicate item",
        .duplicate (items.get ⟨j, hj⟩)⟩ : BatchResult ι δ))
        ∈ sortByKey ((dedupePass (δ := δ) target keyOf items).pre
          ++ order.map (mkBatchResult target worker)) :=
      (sortByKey_perm _).mem_iff.mpr hmemall
    have hget := sorted_get_of_mem _ items.length j _ hkeys hmemsr
    have hgeteq := List.get_of_eq hres ⟨j, h⟩
    rw [hgeteq]
    have hbound : j < ((sortByKey ((dedupePass (δ := δ) target keyOf items).pre
        ++ order.map (mkBatchResult target worker))).map Prod.snd).length := by
      have h1 := congrArg List.length hres
      simp only [List.length_map] at h1 ⊢
      omega
    rw [hget hbound]
    exact ⟨rfl, rfl⟩
  · have hcnt := dedupeLoop_work_key_count (δ := δ) target keyOf items k 0 [] [] []
    have hany : (items.any (fun x => decide (keyOf x = .ok k))) = true :=
      List.any_eq_true.mpr ⟨items.get ⟨i, hi⟩, List.get_mem items i hi,
        by simp only [decide_eq_true_eq]; exact hki⟩
    unfold dedupePass
    rw [hcnt, hany]
    simp
  · intro w hw hwj
    have hjpre : j ∈ ((dedupePass (δ := δ) target keyOf items).pre.map Prod.fst) :=
      List.mem_map.mpr ⟨_, hdup', rfl⟩
    have hjwork : j ∈ ((dedupePass (δ := δ) target keyOf items).work.map
        (fun w => w.1)) :=
      List.mem_map.mpr ⟨w, hw, hwj⟩
    have hcnt := dedupeLoop_index_count (δ := δ) target keyOf items 0 [] [] [] j
    have hrange : (List.range' 0 items.length).count j = 1 := by
      rw [← List.range_eq_range']
      have h1 := List.nodup_iff_count_le_one.mp (List.nodup_range items.length) j
      have h2 : 0 < (List.range items.length).count j :=
        List.count_pos_iff.mpr (List.mem_range.mpr hj)
      omega
    have hpre1 : 0 < ((dedupePass (δ := δ) target keyOf items).pre.map
        Prod.fst).count j := List.count_pos_iff.mpr hjpre
    have hwork1 : 0 < ((dedupePass (δ := δ) target keyOf items).work.map
        (fun w => w.1)).count j := List.count_pos_iff.mpr hjwork
    unfold dedupePass at hpre1 hwork1
    rw [hrange] at hcnt
    simp only [List.map_nil, List.count_nil] at hcnt
    omega

/-- C8 witness: a batch of `["a", "x", "a"]` keyed by identity marks the
third item as a duplicate failure and enqueues only one `"a"` work
item. -/
theorem c8_duplicate_dedupe_witness :
    (((batchResults (runParallelBatch (δ := Unit) "bulk" ["a", "x", "a"]
        (fun x => .ok x) (fun _ => .resp ⟨0, "ok", ()⟩) 2
        [(0, "a", "a"), (1, "x", "x")] "tid" 5)).get ⟨2, by decide⟩).msg
      = "bulk duplicate item") ∧
    ((dedupePass (δ := Unit) "bulk" (fun x => .ok x) ["a", "x", "a"]).work.filter
        (fun w => decide (w.2.1 = "a"))).length = 1 := by
  have h := c8_duplicate_dedupe (δ := Unit) "bulk" ["a", "x", "a"]
    (fun x => .ok x) (fun _ => .resp ⟨0, "ok", ()⟩) 2
    [(0, "a", "a"), (1, "x", "x")] "tid" 5 (by decide) (by decide)
    0 2 (by decide) (by decide) (by decide) "a" (by decide) (by decide)
  exact ⟨(h.1 (by decide)).2, h.2.1⟩

end Pytbox

namespace Pytbox

open Pytbox.Netbox

/-- C10: `max_workers < 1` makes `_run_parallel_batch` return the
immediate `"max_workers must be >= 1"` failure before anything else
happens: no dedupe key is computed, no worker is invoked, and no batch
summary log line is emitted. -/
theorem c10_max_workers_guard {ι δ : Type} (target : String) (items : List ι)
    (keyOf : ι → KeyOutcome) (worker : ι → WorkerOutcome δ) (maxWorkers : ℤ)
    (order : List (ℕ × String × ι)) (taskId : String) (dur : ℤ)
    (hmw : maxWorkers < 1) :
    runParallelBatch target items keyOf worker maxWorkers order taskId dur
      = ⟨⟨1, "max_workers must be >= 1", .noData⟩, 0, 0, []⟩ := by
  simp only [runParallelBatch]
  rw [if_pos hmw]

/-- C10 witness: `max_workers = 0` on a non-empty batch returns the
guard failure with zero key evaluations, zero worker calls and no
logs. -/
theorem c10_max_workers_guard_witness :
    runParallelBatch (δ := Unit) "bulk" ["a", "b"] (fun x => .ok x)
        (fun _ => .resp ⟨0, "ok", ()⟩) 0 [] "tid" 5
      = ⟨⟨1, "max_workers must be >= 1", .noData⟩, 0, 0, []⟩ :=
  c10_max_workers_guard "bulk" ["a", "b"] (fun x => .ok x)
    (fun _ => .resp ⟨0, "ok", ()⟩) 0 [] "tid" 5 (by decide)

end Pytbox

namespace Pytbox.Aliyun

/-- `AliyunClient` construction composed with `call`: the credentials
feed only the SDK sub-clients, which the per-attempt outcome oracle
abstracts, so the oracle may observe them; nothing else does. -/
def clientCall {ρ : Type} (ak sk : String) (base : ℚ) (action : String)
    (cfgRetries : ℤ) (outcomes : String → String → ℕ → CallOutcome ρ)
    (taskId : String) (durs : ℕ → ℤ) : CallTrace ρ :=
  call base action cfgRetries (outcomes ak sk) taskId durs

end Pytbox.Aliyun

namespace Pytbox

open Pytbox.Netbox

/-- C9: secret-free logging as noninterference.  Fixing the
environment's behavior, the log records (and hence the formatted log
text) of the retrying executor are the same for any two configured
token values, the Aliyun call's logs are the same for any two
credential pairs, and the batch orchestrator's single summary record is
built only from the caller-supplied label, the generated task id and
the duration — a configured secret value never flows into any log
line. -/
theorem c9_secret_free_logging :
    (∀ (π : Type) (url token token' : String) (maxRetries : ℤ) (base : ℚ)
        (outcomes : String → List (String × String) → ℕ → HttpOutcome π)
        (tids : ℕ → String) (durs : ℕ → ℤ) (method apiUrl : String),
      outcomes (joinUrl (rstripSlash url) apiUrl) (headers token)
          = outcomes (joinUrl (rstripSlash url) apiUrl) (headers token') →
        (requestWithRetry (mkConfig url token maxRetries base) outcomes tids durs
            method apiUrl).logs.map netboxLogLine
          = (requestWithRetry (mkConfig url token' maxRetries base) outcomes tids
              durs method apiUrl).logs.map netboxLogLine) ∧
    (∀ (ρ : Type) (ak sk ak' sk' : String) (base : ℚ) (action : String)
        (cfgRetries : ℤ)
        (outcomes : String → String → ℕ → Aliyun.CallOutcome ρ)
        (taskId : String) (durs : ℕ → ℤ),
      outcomes ak sk = outcomes ak' sk' →
        (Aliyun.clientCall ak sk base action cfgRetries outcomes taskId
            durs).logs.map aliyunLogLine
          = (Aliyun.clientCall ak' sk' base action cfgRetries outcomes taskId
              durs).logs.map aliyunLogLine) ∧
    (∀ (ι δ : Type) (target : String) (items : List ι) (keyOf : ι → KeyOutcome)
        (worker : ι → WorkerOutcome δ) (maxWorkers : ℤ)
        (order : List (ℕ × String × ι)) (taskId : String) (dur : ℤ),
      1 ≤ maxWorkers →
        (runParallelBatch target items keyOf worker maxWorkers order taskId
            dur).logs = [⟨taskId, target, "ok", dur⟩] ∨
        (runParallelBatch target items keyOf worker maxWorkers order taskId
            dur).logs = [⟨taskId, target, "partial_fail", dur⟩]) := by
  refine ⟨?_, ?_, ?_⟩
  · intro π url token token' maxRetries base outcomes tids durs method apiUrl h
    simp only [requestWithRetry, mkConfig]
    rw [h]
  · intro ρ ak sk ak' sk' base action cfgRetries outcomes taskId durs h
    simp only [Aliyun.clientCall]
    rw [h]
  · intro ι δ target items keyOf worker maxWorkers order taskId dur hmw
    simp only [runParallelBatch]
    rw [if_neg (by omega : ¬ maxWorkers < 1)]
    split
    · rename_i hfail
      right
      rw [if_neg (by omega : ¬ _ = 0)]
    · rename_i hfail
      left
      rw [if_pos (by omega : _ = 0)]

/-- C9 witness: with a fixed environment, changing the Netbox token from
one value to another leaves the formatted log text identical, and a
one-item all-success batch logs exactly its `ok` summary line. -/
theorem c9_secret_free_logging_witness :
    ((requestWithRetry (π := Unit) (mkConfig "https://nb" "secret-a" 3 1)
        (fun _ _ _ => .http 200 ()) (fun _ => "t") (fun _ => 5)
        "get" "/api/x/").logs.map netboxLogLine
      = (requestWithRetry (π := Unit) (mkConfig "https://nb" "secret-b" 3 1)
        (fun _ _ _ => .http 200 ()) (fun _ => "t") (fun _ => 5)
        "get" "/api/x/").logs.map netboxLogLine) ∧
    ((runParallelBatch (δ := Unit) "bulk" ["a"] (fun x => .ok x)
        (fun _ => .resp ⟨0, "ok", ()⟩) 1 [(0, "a", "a")] "tid" 5).logs
          = [⟨"tid", "bulk", "ok", 5⟩] ∨
      (runParallelBatch (δ := Unit) "bulk" ["a"] (fun x => .ok x)
        (fun _ => .resp ⟨0, "ok", ()⟩) 1 [(0, "a", "a")] "tid" 5).logs
          = [⟨"tid", "bulk", "partial_fail", 5⟩]) :=
  ⟨c9_secret_free_logging.1 Unit "https://nb" "secret-a" "secret-b" 3 1
      (fun _ _ _ => .http 200 ()) (fun _ => "t") (fun _ => 5) "get" "/api/x/" rfl,
   c9_secret_free_logging.2.2 String Unit "bulk" ["a"] (fun x => .ok x)
      (fun _ => .resp ⟨0, "ok", ()⟩) 1 [(0, "a", "a")] "tid" 5 (by decide)⟩

end Pytbox
